import Mathlib

/-!
Verification of the rlox bytecode compiler and virtual machine
(src/rlox/src/{chunk,object,value,scanner,compiler,vm}.rs) against its
natural-language specification.

Modelling conventions, used throughout:
* Rust `usize`/`u8`/`u16` values are modelled as `Nat`; wherever the source
  performs a narrowing cast (`as u8`, `& 0xff`) the model keeps the explicit
  mask.  A checked conversion that panics (`try_into().expect(..)`) is
  modelled as `Option` with `none` for the panic.
* Rust `f64` numbers are modelled as `ℚ`.  No claim under consideration
  depends on floating-point rounding, infinities or NaN; all arithmetic in
  the claims is on small integers.
* Rust panics (index out of bounds, `unwrap` on `None`, integer overflow in
  debug builds, `unreachable!`) are modelled as `Option.none` or as a
  dedicated `crash` outcome; they are distinct from the VM's typed
  `RuntimeError` results.
* `HashMap` tables are modelled as association lists (string-interning
  table) or as functions (`globals`), with HashMap `insert`-replace
  semantics.
* Diagnostic side channels (stderr messages of compile errors, the
  `TRACE_EXECUTION` / `PRINT_CODE` dumps, the stray `println!` of the
  current token in `Parser::function`) do not affect semantics and are not
  modelled; the `had_error` / `panic_mode` flags and the VM's `print`
  output are modelled.
-/

namespace RLox

/-- Opcode set, in the declaration order of `chunk.rs` (`repr(u8)`). -/
inductive OpCode
  | Return | Constant | Nil | True | False | Pop
  | GetLocal | SetLocal | GetGlobal | DefineGlobal | SetGlobal
  | Equal | Greater | Less | Add | Subtract | Multiply | Divide
  | Not | Negate | Print | JumpIfFalse | Jump | Loop | Call | Closure
  deriving DecidableEq, Repr

/-- Discriminant of an opcode (the `IntoPrimitive` u8 value). -/
def OpCode.toNat : OpCode → Nat
  | .Return => 0 | .Constant => 1 | .Nil => 2 | .True => 3 | .False => 4
  | .Pop => 5 | .GetLocal => 6 | .SetLocal => 7 | .GetGlobal => 8
  | .DefineGlobal => 9 | .SetGlobal => 10 | .Equal => 11 | .Greater => 12
  | .Less => 13 | .Add => 14 | .Subtract => 15 | .Multiply => 16
  | .Divide => 17 | .Not => 18 | .Negate => 19 | .Print => 20
  | .JumpIfFalse => 21 | .Jump => 22 | .Loop => 23 | .Call => 24
  | .Closure => 25

/-- Decoding a byte into an opcode (`TryFromPrimitive`); `none` is the
`TryFromPrimitiveError` case. -/
def OpCode.ofNat? (n : Nat) : Option OpCode :=
  match n with
  | 0 => some .Return | 1 => some .Constant | 2 => some .Nil
  | 3 => some .True | 4 => some .False | 5 => some .Pop
  | 6 => some .GetLocal | 7 => some .SetLocal | 8 => some .GetGlobal
  | 9 => some .DefineGlobal | 10 => some .SetGlobal | 11 => some .Equal
  | 12 => some .Greater | 13 => some .Less | 14 => some .Add
  | 15 => some .Subtract | 16 => some .Multiply | 17 => some .Divide
  | 18 => some .Not | 19 => some .Negate | 20 => some .Print
  | 21 => some .JumpIfFalse | 22 => some .Jump | 23 => some .Loop
  | 24 => some .Call | 25 => some .Closure
  | _ => none

/-- Alias for the builtin booleans, for signatures where the
`Value.Bool` constructor shadows the name. -/
abbrev BoolT := Bool

/-- Runtime values (`value.rs`).  The `Obj` payload is the index of the
object in the append-only heap (`ObjPointer(usize)`). -/
inductive Value
  | Nil
  | Number (n : ℚ)
  | Bool (b : BoolT)
  | Obj (p : Nat)
  deriving DecidableEq, Repr

/-- Truthiness (`Value::is_falsey`): nil and false are falsey. -/
def Value.is_falsey : Value → BoolT
  | .Nil => true
  | .Bool b => !b
  | _ => false

/-- Equality opcode semantics (`Value::eq`): structural on Nil/Number/Bool,
handle comparison on heap objects. -/
def Value.eq : Value → Value → BoolT
  | .Nil, .Nil => true
  | .Number a, .Number b => a == b
  | .Bool a, .Bool b => a == b
  | .Obj a, .Obj b => a == b
  | _, _ => false

/-- Bytecode container (`chunk.rs`): code bytes, a parallel line table and
the constant pool. -/
structure Chunk where
  code : List Nat
  lines : List Nat
  constants : List Value
  deriving DecidableEq, Repr

/-- Chunk constructor (`Chunk::new`). -/
def Chunk.new : Chunk := ⟨[], [], []⟩

/-- Append a code byte and its source line (`Chunk::write`). -/
def Chunk.write (c : Chunk) (byte line : Nat) : Chunk :=
  { c with code := c.code ++ [byte], lines := c.lines ++ [line] }

/-- Line lookup for an instruction offset (`Chunk::line`); Rust indexing
panics out of bounds, modelled as `none`. -/
def Chunk.line (c : Chunk) (offset : Nat) : Option Nat :=
  c.lines.get? offset

/-- Append a constant and return its index (`Chunk::add_constant`).  The
source converts `constants.len() - 1` to `u8` with
`.expect("No more space for constant id in u8")`: an index above 255
panics, modelled as `none`.  Note that no compile error is reported on
this path — the process aborts. -/
def Chunk.add_constant (c : Chunk) (v : Value) : Option (Chunk × Nat) :=
  let c := { c with constants := c.constants ++ [v] }
  let idx := c.constants.length - 1
  if idx ≤ 255 then some (c, idx) else none

/-- Constant-pool lookup (`Chunk::constant`); Rust indexing panics out of
bounds, modelled as `none`. -/
def Chunk.constant (c : Chunk) (id : Nat) : Option Value :=
  c.constants.get? id

/-- The single in-place byte overwrite performed by `Parser::patch_jump`
(`self.current_chunk().code[offset] = byte`): mutates one existing code
byte, leaves the line table and the constant pool alone. -/
def Chunk.patch_byte (c : Chunk) (offset byte : Nat) : Chunk :=
  { c with code := c.code.set offset byte }

/-- Heap object function payload (`ObjFunction`). -/
structure ObjFunction where
  arity : Nat
  chunk : Chunk
  name : Option (List Char)
  deriving DecidableEq, Repr

/-- Function-object constructor (`ObjFunction::new`). -/
def ObjFunction.new : ObjFunction := ⟨0, Chunk.new, none⟩

/-- Heap object payload (`ObjKind`): an interned string or a function. -/
inductive ObjKind
  | String (s : List Char)
  | Function (f : ObjFunction)
  deriving DecidableEq, Repr

/-- Heap object (`Obj`). -/
structure Obj where
  kind : ObjKind
  deriving DecidableEq, Repr

/-- First-match lookup in the interning table, modelling
`HashMap::<String, ObjPointer>::get`. -/
def lookupStr : List (List Char × Nat) → List Char → Option Nat
  | [], _ => none
  | (k, v) :: rest, s => if k = s then some v else lookupStr rest s

/-- Object heap (`ObjHeap`): append-only object store plus the
content-to-handle string-interning table. -/
structure ObjHeap where
  heap : List Obj
  strings : List (List Char × Nat)
  deriving DecidableEq, Repr

/-- Heap constructor (`ObjHeap::new`). -/
def ObjHeap.new : ObjHeap := ⟨[], []⟩

/-- Dereference a handle (`ObjPointer::borrow`); `none` models the
"Dangling pointer" panic. -/
def ObjHeap.get? (h : ObjHeap) (p : Nat) : Option Obj :=
  h.heap.get? p

/-- Append an object and hand back its index (`ObjHeap::allocate_obj`). -/
def ObjHeap.allocate_obj (h : ObjHeap) (o : Obj) : ObjHeap × Nat :=
  ({ h with heap := h.heap ++ [o] }, h.heap.length)

/-- Allocate a fresh string object and record it in the interning table
(`ObjHeap::allocate_string`). -/
def ObjHeap.allocate_string (h : ObjHeap) (s : List Char) : ObjHeap × Nat :=
  let (h, ptr) := h.allocate_obj ⟨.String s⟩
  ({ h with strings := (s, ptr) :: h.strings }, ptr)

/-- Intern a borrowed string (`ObjHeap::copy_string`): reuse the interned
handle when the content is already present, otherwise allocate. -/
def ObjHeap.copy_string (h : ObjHeap) (s : List Char) : ObjHeap × Nat :=
  match lookupStr h.strings s with
  | some interned => (h, interned)
  | none => h.allocate_string s

/-- Intern an owned string (`ObjHeap::take_string`): same handle reuse as
`copy_string` (the Rust difference is only ownership of the buffer). -/
def ObjHeap.take_string (h : ObjHeap) (s : List Char) : ObjHeap × Nat :=
  match lookupStr h.strings s with
  | some interned => (h, interned)
  | none => h.allocate_string s

/-- Content of the string object stored at handle `p`, when there is one. -/
def ObjHeap.stringAt (h : ObjHeap) (p : Nat) : Option (List Char) :=
  match h.get? p with
  | some ⟨.String s⟩ => some s
  | _ => none

/-- Heaps reachable by the program: the fresh heap, grown by string
interning (`copy_string` from the compiler and the VM, `take_string` from
the `Add` opcode) and by direct `allocate_obj` calls — which in the source
are only ever made with `ObjKind::Function` payloads
(`compiler.rs` `Parser::function`, `vm.rs` `VM::interpret`). -/
inductive HeapReach : ObjHeap → Prop
  | new : HeapReach ObjHeap.new
  | copy (h : ObjHeap) (s : List Char) :
      HeapReach h → HeapReach (h.copy_string s).1
  | take (h : ObjHeap) (s : List Char) :
      HeapReach h → HeapReach (h.take_string s).1
  | allocFn (h : ObjHeap) (f : ObjFunction) :
      HeapReach h → HeapReach (h.allocate_obj ⟨.Function f⟩).1

/-- The string-interning invariant: the interning table maps exactly the
string contents present on the heap to the handles of the objects holding
them. -/
def StrInv (h : ObjHeap) : Prop :=
  (∀ s p, lookupStr h.strings s = some p → h.stringAt p = some s) ∧
  (∀ p s, h.stringAt p = some s → lookupStr h.strings s = some p)

theorem strInv_new : StrInv ObjHeap.new := by
  constructor
  · intro s p hp; simp [lookupStr, ObjHeap.new] at hp
  · intro p s hp
    simp [ObjHeap.stringAt, ObjHeap.get?, ObjHeap.new] at hp

theorem get?_snoc_lt {α : Type} (l : List α) (a : α) {p : Nat}
    (h : p < l.length) : (l ++ [a]).get? p = l.get? p :=
  List.get?_append h

theorem get?_snoc_self {α : Type} (l : List α) (a : α) :
    (l ++ [a]).get? l.length = some a := by
  rw [List.get?_append_right (Nat.le_refl _)]
  simp

theorem get?_snoc_cases {α : Type} (l : List α) (a : α) (p : Nat) (b : α)
    (h : (l ++ [a]).get? p = some b) :
    (p < l.length ∧ l.get? p = some b) ∨ (p = l.length ∧ b = a) := by
  rcases Nat.lt_or_ge p l.length with hlt | hge
  · exact Or.inl ⟨hlt, by rwa [get?_snoc_lt l a hlt] at h⟩
  · rcases Nat.lt_or_ge p (l.length + 1) with hin | hout
    · have hp : p = l.length := by omega
      subst hp
      rw [get?_snoc_self] at h
      exact Or.inr ⟨rfl, (Option.some.injEq _ _ ▸ h).symm⟩
    · exfalso
      have : (l ++ [a]).get? p = none := by
        apply List.get?_eq_none.mpr
        simpa using hout
      rw [this] at h
      exact Option.noConfusion h

theorem stringAt_append_fn (h : ObjHeap) (f : ObjFunction) (p : Nat) :
    (ObjHeap.mk (h.heap ++ [⟨.Function f⟩]) h.strings).stringAt p =
      h.stringAt p := by
  unfold ObjHeap.stringAt ObjHeap.get?
  simp only
  rcases lt_or_ge p h.heap.length with hlt | hge
  · rw [get?_snoc_lt _ _ hlt]
  · rw [List.get?_eq_none.mpr hge]
    rcases Nat.lt_or_ge p (h.heap.length + 1) with h2 | h2
    · have hp : p = h.heap.length := by omega
      subst hp
      rw [get?_snoc_self]
    · rw [List.get?_eq_none.mpr (by simpa using h2)]

theorem strInv_allocFn (h : ObjHeap) (f : ObjFunction) (hinv : StrInv h) :
    StrInv (h.allocate_obj ⟨.Function f⟩).1 := by
  obtain ⟨h1, h2⟩ := hinv
  constructor
  · intro s p hp
    have := h1 s p hp
    simpa [ObjHeap.allocate_obj, stringAt_append_fn] using this
  · intro p s hp
    apply h2
    simpa [ObjHeap.allocate_obj, stringAt_append_fn] using hp

theorem strInv_allocate_string (h : ObjHeap) (s : List Char)
    (hinv : StrInv h) (habs : lookupStr h.strings s = none) :
    StrInv (h.allocate_string s).1 := by
  obtain ⟨h1, h2⟩ := hinv
  constructor
  · intro t p hp
    simp only [ObjHeap.allocate_string, ObjHeap.allocate_obj, lookupStr] at hp ⊢
    by_cases hts : s = t
    · subst hts
      rw [if_pos rfl] at hp
      have hp' : h.heap.length = p := Option.some.injEq _ _ ▸ hp
      subst hp'
      unfold ObjHeap.stringAt ObjHeap.get?
      simp only
      rw [get?_snoc_self]
    · rw [if_neg hts] at hp
      have hold := h1 t p hp
      unfold ObjHeap.stringAt ObjHeap.get? at hold ⊢
      simp only at hold ⊢
      have hlt : p < h.heap.length := by
        by_contra hge
        rw [List.get?_eq_none.mpr (Nat.le_of_not_lt hge)] at hold
        exact Option.noConfusion hold
      rw [get?_snoc_lt _ _ hlt]
      exact hold
  · intro p t hp
    simp only [ObjHeap.allocate_string, ObjHeap.allocate_obj, lookupStr] at hp ⊢
    unfold ObjHeap.stringAt ObjHeap.get? at hp
    simp only at hp
    cases hraw : (h.heap ++ [Obj.mk (ObjKind.String s)]).get? p with
    | none => rw [hraw] at hp; exact Option.noConfusion hp
    | some o =>
      rw [hraw] at hp
      rcases get?_snoc_cases _ _ _ _ hraw with ⟨hlt, hget⟩ | ⟨hplen, hob⟩
      · have hold : h.stringAt p = some t := by
          unfold ObjHeap.stringAt ObjHeap.get?
          rw [hget]
          exact hp
        have hres := h2 p t hold
        have hts : ¬ (s = t) := by
          intro hts; subst hts; rw [habs] at hres; exact Option.noConfusion hres
        rw [if_neg hts]
        exact hres
      · subst hob
        have hst : s = t := by
          cases hp' : (⟨ObjKind.String s⟩ : Obj).kind with
          | _ => revert hp; simp
        subst hst
        rw [if_pos rfl, hplen]

theorem strInv_copy_string (h : ObjHeap) (s : List Char) (hinv : StrInv h) :
    StrInv (h.copy_string s).1 := by
  unfold ObjHeap.copy_string
  cases hl : lookupStr h.strings s with
  | some p => exact hinv
  | none => exact strInv_allocate_string h s hinv hl

theorem strInv_take_string (h : ObjHeap) (s : List Char) (hinv : StrInv h) :
    StrInv (h.take_string s).1 := by
  unfold ObjHeap.take_string
  cases hl : lookupStr h.strings s with
  | some p => exact hinv
  | none => exact strInv_allocate_string h s hinv hl

/-- Every reachable heap satisfies the interning invariant. -/
theorem heapReach_strInv (h : ObjHeap) (hr : HeapReach h) : StrInv h := by
  induction hr with
  | new => exact strInv_new
  | copy h s _ ih => exact strInv_copy_string h s ih
  | take h s _ ih => exact strInv_take_string h s ih
  | allocFn h f _ ih => exact strInv_allocFn h f ih


/-! ## Virtual machine (`vm.rs`) -/

/-- Decimal digit rendering of a natural number. -/
def natChars (n : Nat) : List Char := Nat.toDigits 10 n

/-- Rendering of a number, matching Rust `format!("{}", f64)` on integral
values (those are the only ones the claims exercise); the non-integral
fallback renders the exact quotient, where Rust would print a decimal
expansion. -/
def numChars (q : ℚ) : List Char :=
  let sign : List Char := if q.num < 0 then ['-'] else []
  if q.den = 1 then sign ++ natChars q.num.natAbs
  else sign ++ natChars q.num.natAbs ++ ['/'] ++ natChars q.den

/-- Display of a heap object (`Obj::to_string`). -/
def Obj.display : Obj → List Char
  | ⟨.String s⟩ => s
  | ⟨.Function f⟩ => "<fn ".toList ++ f.name.getD "<script>".toList ++ ">".toList

/-- Display of a handle (`ObjPointer::to_string`): the object display
followed by the raw handle index; `none` models the dangling-pointer
panic. -/
def ObjHeap.ptrDisplay (h : ObjHeap) (p : Nat) : Option (List Char) :=
  match h.get? p with
  | some o => some (o.display ++ " (".toList ++ natChars p ++ ")".toList)
  | none => none

/-- Display of a value (`Value::to_string`). -/
def Value.display (v : Value) (h : ObjHeap) : Option (List Char) :=
  match v with
  | .Number n => some (numChars n)
  | .Bool b => some (if b then "true".toList else "false".toList)
  | .Nil => some "nil".toList
  | .Obj p => h.ptrDisplay p

/-- HashMap insert on the global table (replace semantics). -/
def gInsert (g : Nat → Option Value) (k : Nat) (v : Value) :
    Nat → Option Value :=
  fun x => if x = k then some v else g x

/-- One call frame (`CallFrame`): callee handle, instruction pointer and
frame-base offset (`fp`) into the shared operand stack. -/
structure CallFrame where
  function : Nat
  ip : Nat
  fp : Nat
  deriving DecidableEq, Repr

/-- VM state.  The Rust operand stack is a fixed `[Value; STACK_MAX]`
array plus a `stack_top` index; it is modelled by its live prefix
(`stack`, bottom first, `stack.length = stack_top`).  `output` collects
the lines written by the `Print` opcode.  The active call frame is the
head of `frames` (the last element of the Rust `Vec`). -/
structure VMState where
  frames : List CallFrame
  stack : List Value
  heap : ObjHeap
  globals : Nat → Option Value
  output : List (List Char)

/-- Replace the active frame's instruction pointer. -/
def VMState.withIp (s : VMState) (f : CallFrame) (rest : List CallFrame)
    (i : Nat) : VMState :=
  { s with frames := { f with ip := i } :: rest }

/-- Push on the operand stack (`VM::push`). -/
def VMState.push (s : VMState) (v : Value) : VMState :=
  { s with stack := s.stack ++ [v] }

/-- Pop the operand stack (`VM::pop`); `none` models the index underflow
panic on an empty stack. -/
def VMState.popv (s : VMState) : Option (Value × VMState) :=
  match s.stack.getLast? with
  | some v => some (v, { s with stack := s.stack.dropLast })
  | none => none

/-- Peek at distance `d` from the top (`VM::peek`); `none` models the
out-of-range panic. -/
def VMState.peek (s : VMState) (d : Nat) : Option Value :=
  if d < s.stack.length then s.stack.get? (s.stack.length - 1 - d) else none

/-- Chunk of the function object the frame runs
(`CallFrame::function(..).chunk`); `none` models the dangling-pointer /
`as_function` panics. -/
def VMState.chunkOf (s : VMState) (f : CallFrame) : Option Chunk :=
  match s.heap.get? f.function with
  | some ⟨.Function fn⟩ => some fn.chunk
  | _ => none

/-- Outcome of one dispatch-loop iteration.  `halt` is the `Return` arm's
`return Ok(())`; `err` is a `runtime_error!` return carrying the message
and the VM state at that point (the Rust error struct also carries a
line/call-stack trace, a diagnostic derived from the same state);
`crash` models source panics. -/
inductive StepRes
  | ok (s : VMState)
  | halt (s : VMState)
  | err (msg : List Char) (s : VMState)
  | crash

/-- Frame push for a verified call (`VM::call`): arity check first, then
the `FRAMES_MAX = 64` depth check, then the new frame with
`fp = stack_top - arg_count - 1` and `ip = 0`.  The final `crash` branch
models the `usize` underflow when fewer than `arg_count + 1` values are
on the stack. -/
def vmCall (s : VMState) (ptr argCount arity : Nat) : StepRes :=
  if argCount ≠ arity then
    .err ("Expected ".toList ++ natChars arity ++
      " arguments, but got ".toList ++ natChars argCount) s
  else if s.frames.length = 64 then
    .err "Stack overflow!".toList s
  else if argCount + 1 ≤ s.stack.length then
    .ok { s with frames := ⟨ptr, 0, s.stack.length - argCount - 1⟩ :: s.frames }
  else .crash

/-- Callee dispatch (`VM::call_value`): only Function heap objects are
callable. -/
def callValue (s : VMState) (callee : Value) (argCount : Nat) : StepRes :=
  match callee with
  | .Obj p =>
    match s.heap.get? p with
    | none => .crash
    | some o =>
      match o.kind with
      | .Function fn => vmCall s p argCount fn.arity
      | _ => .err "Can only call functions and classes".toList s
  | _ => .err "Can only call functions and classes".toList s

/-- The `binary_op!` macro: pop two, require two numbers, push
`mk a b` where `a` is the deeper operand. -/
def binNum (s : VMState) (mk : ℚ → ℚ → Value) : StepRes :=
  match s.popv with
  | none => .crash
  | some (b, s2) =>
    match s2.popv with
    | none => .crash
    | some (a, s3) =>
      match a, b with
      | .Number x, .Number y => .ok (s3.push (mk x y))
      | _, _ => .err "Operands must be numbers.".toList s3

/-- Execution of one decoded opcode, with the opcode byte already
consumed: `f.ip + 1` is the next unread byte.  Operand reads mirror
`read_byte`/`read_short`/`read_constant` (each advances the active
frame's ip; the chunk cannot change between the reads). -/
def execOp (s : VMState) (f : CallFrame) (rest : List CallFrame)
    (ch : Chunk) (op : OpCode) : StepRes :=
  let ip1 := f.ip + 1
  let s1 := s.withIp f rest ip1
  match op with
  | .Return => .halt s1
  | .Constant =>
    match ch.code.get? ip1 with
    | none => .crash
    | some cid =>
      let s2 := s.withIp f rest (ip1 + 1)
      match ch.constant cid with
      | none => .crash
      | some v => .ok (s2.push v)
  | .Nil => .ok (s1.push .Nil)
  | .True => .ok (s1.push (.Bool true))
  | .False => .ok (s1.push (.Bool false))
  | .Pop =>
    match s1.popv with
    | none => .crash
    | some (_, s2) => .ok s2
  | .Negate =>
    match s1.popv with
    | none => .crash
    | some (v, s2) =>
      match v with
      | .Number n => .ok (s2.push (.Number (-n)))
      | _ => .err "Operand must be a number".toList s2
      -- the Rust message interpolates the operand's debug form; elided
  | .Not =>
    match s1.popv with
    | none => .crash
    | some (v, s2) => .ok (s2.push (.Bool v.is_falsey))
  | .Equal =>
    match s1.popv with
    | none => .crash
    | some (b, s2) =>
      match s2.popv with
      | none => .crash
      | some (a, s3) => .ok (s3.push (.Bool (a.eq b)))
  | .Add =>
    match s1.popv with
    | none => .crash
    | some (b, s2) =>
      match s2.popv with
      | none => .crash
      | some (a, s3) =>
        match b, a with
        | .Number nb, .Number na => .ok (s3.push (.Number (na + nb)))
        | .Obj pb, .Obj pa =>
          match s3.heap.get? pa with
          | none => .crash
          | some oa =>
            match s3.heap.get? pb with
            | none => .crash
            | some ob =>
              match oa.kind, ob.kind with
              | .String sa, .String sb =>
                let hp := s3.heap.take_string (sa ++ sb)
                .ok ({ s3 with heap := hp.1 }.push (.Obj hp.2))
              | _, _ =>
                .err "Operands must be two numbers or two strings".toList s3
        | _, _ => .err "Operands must be two numbers or two strings".toList s3
  | .Subtract => binNum s1 (fun a b => .Number (a - b))
  | .Multiply => binNum s1 (fun a b => .Number (a * b))
  | .Divide => binNum s1 (fun a b => .Number (a / b))
  | .Greater => binNum s1 (fun a b => .Bool (decide (a > b)))
  | .Less => binNum s1 (fun a b => .Bool (decide (a < b)))
  | .Print =>
    match s1.popv with
    | none => .crash
    | some (v, s2) =>
      match v.display s2.heap with
      | none => .crash
      | some line => .ok { s2 with output := s2.output ++ [line] }
  | .GetGlobal =>
    match ch.code.get? ip1 with
    | none => .crash
    | some cid =>
      let s2 := s.withIp f rest (ip1 + 1)
      match ch.constant cid with
      | none => .crash
      | some v =>
        match v with
        | .Obj name =>
          match s2.globals name with
          | some value => .ok (s2.push value)
          | none =>
            match s2.heap.ptrDisplay name with
            | none => .crash
            | some d =>
              .err ("Undefined variable '".toList ++ d ++ "'".toList) s2
        | _ => .crash  -- as_obj_ptr panic on a non-object constant
  | .DefineGlobal =>
    match ch.code.get? ip1 with
    | none => .crash
    | some cid =>
      let s2 := s.withIp f rest (ip1 + 1)
      match ch.constant cid with
      | none => .crash
      | some v =>
        match v with
        | .Obj name =>
          match s2.peek 0 with
          | none => .crash
          | some value =>
            let s3 := { s2 with globals := gInsert s2.globals name value }
            match s3.popv with
            | none => .crash
            | some (_, s4) => .ok s4
        | _ => .crash
  | .SetGlobal =>
    match ch.code.get? ip1 with
    | none => .crash
    | some cid =>
      let s2 := s.withIp f rest (ip1 + 1)
      match ch.constant cid with
      | none => .crash
      | some v =>
        match v with
        | .Obj name =>
          match s2.globals name with
          | none =>
            match s2.heap.ptrDisplay name with
            | none => .crash
            | some d =>
              .err ("Undefined variable '".toList ++ d ++ "'".toList) s2
          | some _ =>
            match s2.peek 0 with
            | none => .crash
            | some value =>
              .ok { s2 with globals := gInsert s2.globals name value }
              -- no pop: an assignment is an expression and leaves its value
        | _ => .crash
  | .GetLocal =>
    match ch.code.get? ip1 with
    | none => .crash
    | some slot =>
      let s2 := s.withIp f rest (ip1 + 1)
      match s2.stack.get? (f.fp + slot) with
      | none => .crash
      | some v => .ok (s2.push v)
  | .SetLocal =>
    match ch.code.get? ip1 with
    | none => .crash
    | some slot =>
      let s2 := s.withIp f rest (ip1 + 1)
      match s2.peek 0 with
      | none => .crash
      | some v =>
        if f.fp + slot < s2.stack.length then
          .ok { s2 with stack := s2.stack.set (f.fp + slot) v }
        else .crash
  | .JumpIfFalse =>
    match ch.code.get? ip1, ch.code.get? (ip1 + 1) with
    | some hi, some lo =>
      let off := hi * 256 + lo
      let s2 := s.withIp f rest (ip1 + 2)
      match s2.peek 0 with
      | none => .crash
      | some v =>
        if v.is_falsey then .ok (s.withIp f rest (ip1 + 2 + off))
        else .ok s2
    | _, _ => .crash
  | .Jump =>
    match ch.code.get? ip1, ch.code.get? (ip1 + 1) with
    | some hi, some lo =>
      let off := hi * 256 + lo
      .ok (s.withIp f rest (ip1 + 2 + off))
    | _, _ => .crash
  | .Loop =>
    match ch.code.get? ip1, ch.code.get? (ip1 + 1) with
    | some hi, some lo =>
      let off := hi * 256 + lo
      -- debug-build usize underflow panic when the offset overshoots
      if off ≤ ip1 + 2 then .ok (s.withIp f rest (ip1 + 2 - off))
      else .crash
    | _, _ => .crash
  | .Call =>
    match ch.code.get? ip1 with
    | none => .crash
    | some argc =>
      let s2 := s.withIp f rest (ip1 + 1)
      match s2.peek argc with
      | none => .crash
      | some callee => callValue s2 callee argc
  | .Closure => .crash
    -- the source's dispatch match has no Closure arm

/-- One iteration of the dispatch loop (`VM::run` body): fetch the byte
at the active frame's ip, decode, execute. -/
def vmStep (s : VMState) : StepRes :=
  match s.frames with
  | [] => .crash
  | f :: rest =>
    match s.chunkOf f with
    | none => .crash
    | some ch =>
      match ch.code.get? f.ip with
      | none => .crash
      | some b =>
        match OpCode.ofNat? b with
        | none => .crash
        | some op => execOp s f rest ch op

/-- Result of running the dispatch loop to completion. -/
inductive RunRes
  | halted (s : VMState)
  | errored (msg : List Char) (s : VMState)
  | crashed
  | fuelOut

/-- The dispatch loop (`VM::run`), fuelled. -/
def vmRun : Nat → VMState → RunRes
  | 0, _ => .fuelOut
  | n + 1, s =>
    match vmStep s with
    | .ok s' => vmRun n s'
    | .halt s' => .halted s'
    | .err m s' => .errored m s'
    | .crash => .crashed


/-! ## Claim C9: the code/lines parallel-table invariant -/

/-- C9: every Chunk operation — `new`, `write`, `add_constant`, and the
backpatching overwrite of an already-written byte — preserves
`len(code) = len(lines)`, so every code byte has a source-line entry at
the same offset.  (`add_constant` moreover leaves `code` and `lines`
untouched.) -/
theorem C9_chunk_code_lines_invariant :
    (Chunk.new.code.length = Chunk.new.lines.length)
    ∧ (∀ (c : Chunk) (byte line : Nat), c.code.length = c.lines.length →
        (c.write byte line).code.length = (c.write byte line).lines.length)
    ∧ (∀ (c : Chunk) (v : Value) (c' : Chunk) (i : Nat),
        c.code.length = c.lines.length →
        c.add_constant v = some (c', i) →
        c'.code.length = c'.lines.length ∧ c'.code = c.code ∧ c'.lines = c.lines)
    ∧ (∀ (c : Chunk) (offset byte : Nat), c.code.length = c.lines.length →
        (c.patch_byte offset byte).code.length =
          (c.patch_byte offset byte).lines.length) := by
  refine ⟨rfl, ?_, ?_, ?_⟩
  · intro c byte line h
    simp [Chunk.write, h]
  · intro c v c' i h hc
    simp only [Chunk.add_constant] at hc
    split at hc
    · obtain ⟨h1, h2⟩ := Prod.mk.injEq .. ▸ Option.some.injEq _ _ ▸ hc
      subst h1
      exact ⟨h, rfl, rfl⟩
    · exact Option.noConfusion hc
  · intro c offset byte h
    simp [Chunk.patch_byte, h]

theorem C9_witness :
    ((Chunk.new.write 1 2).patch_byte 0 7).code.length =
      ((Chunk.new.write 1 2).patch_byte 0 7).lines.length :=
  C9_chunk_code_lines_invariant.2.2.2 (Chunk.new.write 1 2) 0 7 (by decide)

/-! ## Claim C5: string interning makes handle equality content equality -/

/-- C5: in every reachable heap, (i) the `Equal` opcode's handle
comparison on two string objects is true exactly when the contents are
equal; (ii) interning a content that is already present returns exactly
the existing handle and leaves the heap unchanged, for `copy_string` and
`take_string` alike — so any number of internings of equal contents, in
any order, yield one handle; (iii) interning always yields a handle
holding the requested content. -/
theorem C5_string_interning (h : ObjHeap) (hr : HeapReach h) :
    (∀ p q sp sq, h.stringAt p = some sp → h.stringAt q = some sq →
        (Value.eq (.Obj p) (.Obj q) = true ↔ sp = sq))
    ∧ (∀ s p, h.stringAt p = some s →
        h.copy_string s = (h, p) ∧ h.take_string s = (h, p))
    ∧ (∀ s, (h.copy_string s).1.stringAt (h.copy_string s).2 = some s
        ∧ (h.take_string s).1.stringAt (h.take_string s).2 = some s) := by
  obtain ⟨h1, h2⟩ := heapReach_strInv h hr
  refine ⟨?_, ?_, ?_⟩
  · intro p q sp sq hp hq
    constructor
    · intro heq
      have hpq : p = q := by simpa [Value.eq] using heq
      subst hpq
      rw [hp] at hq
      exact (Option.some.injEq _ _ ▸ hq)
    · intro hsp
      subst hsp
      have l1 := h2 p sp hp
      have l2 := h2 q sp hq
      rw [l1] at l2
      have : p = q := Option.some.injEq _ _ ▸ l2
      subst this
      simp [Value.eq]
  · intro s p hp
    have hlook := h2 p s hp
    constructor
    · unfold ObjHeap.copy_string
      rw [hlook]
    · unfold ObjHeap.take_string
      rw [hlook]
  · intro s
    constructor
    · unfold ObjHeap.copy_string
      cases hl : lookupStr h.strings s with
      | some p => exact h1 s p hl
      | none =>
        unfold ObjHeap.allocate_string ObjHeap.allocate_obj
        unfold ObjHeap.stringAt ObjHeap.get?
        simp only
        rw [get?_snoc_self]
    · unfold ObjHeap.take_string
      cases hl : lookupStr h.strings s with
      | some p => exact h1 s p hl
      | none =>
        unfold ObjHeap.allocate_string ObjHeap.allocate_obj
        unfold ObjHeap.stringAt ObjHeap.get?
        simp only
        rw [get?_snoc_self]

theorem C5_witness :
    ((ObjHeap.new.copy_string ['a']).1.stringAt 0 = some ['a'])
    ∧ (ObjHeap.new.copy_string ['a']).1.copy_string ['a'] =
        ((ObjHeap.new.copy_string ['a']).1, 0)
    ∧ (ObjHeap.new.copy_string ['a']).1.take_string ['a'] =
        ((ObjHeap.new.copy_string ['a']).1, 0) := by
  have hmain := C5_string_interning (ObjHeap.new.copy_string ['a']).1
      (HeapReach.copy _ _ HeapReach.new)
  have hs : (ObjHeap.new.copy_string ['a']).1.stringAt 0 = some ['a'] := by
    decide
  exact ⟨hs, (hmain.2.1 ['a'] 0 hs).1, (hmain.2.1 ['a'] 0 hs).2⟩


/-! ## Stack and step helper lemmas -/

theorem ofNat?_toNat (op : OpCode) : OpCode.ofNat? op.toNat = some op := by
  cases op <;> rfl

theorem popv_snoc (s : VMState) (st : List Value) (v : Value)
    (h : s.stack = st ++ [v]) :
    s.popv = some (v, { s with stack := st }) := by
  unfold VMState.popv
  rw [h]
  simp [List.getLast?_concat, List.dropLast_concat]

theorem peek_zero_snoc (s : VMState) (st : List Value) (v : Value)
    (h : s.stack = st ++ [v]) :
    s.peek 0 = some v := by
  unfold VMState.peek
  rw [h]
  have hlen : (st ++ [v]).length = st.length + 1 := by simp
  rw [hlen]
  simp [get?_snoc_self]

theorem peek_withIp (s : VMState) (f : CallFrame) (rest : List CallFrame)
    (i d : Nat) : (s.withIp f rest i).peek d = s.peek d := rfl

/-- Predicate used to state C3's error cases. -/
def Value.isNumber : Value → BoolT
  | .Number _ => true
  | _ => false

/-- Predicate used to state C3's error cases. -/
def Value.isObj : Value → BoolT
  | .Obj _ => true
  | _ => false

/-- Predicate used to state C3's error cases. -/
def Obj.isString : Obj → BoolT
  | ⟨.String _⟩ => true
  | _ => false

/-- Content correctness of `take_string` under the interning invariant. -/
theorem take_string_stringAt (h : ObjHeap) (hinv : StrInv h) (s : List Char) :
    (h.take_string s).1.stringAt (h.take_string s).2 = some s := by
  unfold ObjHeap.take_string
  cases hl : lookupStr h.strings s with
  | some p => exact hinv.1 s p hl
  | none =>
    unfold ObjHeap.allocate_string ObjHeap.allocate_obj
    unfold ObjHeap.stringAt ObjHeap.get?
    simp only
    rw [get?_snoc_self]

/-- Behaviour of the `binary_op!` macro: two numeric operands. -/
theorem binNum_spec_num (s : VMState) (st : List Value) (x y : ℚ)
    (mk : ℚ → ℚ → Value)
    (h : s.stack = st ++ [.Number x, .Number y]) :
    binNum s mk = .ok { s with stack := st ++ [mk x y] } := by
  have h2 : s.stack = (st ++ [Value.Number x]) ++ [Value.Number y] := by
    rw [h]; simp
  simp [binNum, VMState.popv, VMState.push, h2,
    List.getLast?_concat, List.dropLast_concat]

/-- Behaviour of the `binary_op!` macro: a non-numeric operand. -/
theorem binNum_spec_err (s : VMState) (st : List Value) (a b : Value)
    (mk : ℚ → ℚ → Value) (h : s.stack = st ++ [a, b])
    (hnum : (a.isNumber && b.isNumber) = false) :
    binNum s mk =
      .err "Operands must be numbers.".toList { s with stack := st } := by
  have h2 : s.stack = (st ++ [a]) ++ [b] := by rw [h]; simp
  cases a <;> cases b <;>
    simp_all [binNum, VMState.popv, VMState.push, h2, Value.isNumber,
      List.getLast?_concat, List.dropLast_concat]

/-- The result pushed by a successful binary numeric opcode, as a function
of the opcode and the two numeric operands (deeper operand first). -/
def numResult (op : OpCode) (x y : ℚ) : Value :=
  match op with
  | .Subtract => .Number (x - y)
  | .Multiply => .Number (x * y)
  | .Divide => .Number (x / y)
  | .Greater => .Bool (decide (x > y))
  | .Less => .Bool (decide (x < y))
  | .Add => .Number (x + y)
  | _ => .Nil

/-! ## Claim C3: binary numeric opcodes and Add -/

/-- C3: a binary numeric opcode (Subtract, Multiply, Divide, Greater,
Less, and Add) pops its two operands; when both are numbers it pushes the
numeric/boolean result; when they are not (and, for Add, are not two heap
String objects either) it raises a RuntimeError.  Add on two heap String
objects pushes a (possibly newly interned) string whose content is the
concatenation of the left then the right operand. -/
theorem C3_binary_numeric_opcodes
    (s : VMState) (f : CallFrame) (rest : List CallFrame) (ch : Chunk)
    (st : List Value) (a b : Value)
    (hf : s.frames = f :: rest)
    (hch : s.chunkOf f = some ch)
    (hst : s.stack = st ++ [a, b]) :
    (∀ (op : OpCode) (x y : ℚ),
      (op = .Subtract ∨ op = .Multiply ∨ op = .Divide ∨ op = .Greater ∨
        op = .Less ∨ op = .Add) →
      ch.code.get? f.ip = some op.toNat →
      a = .Number x → b = .Number y →
      vmStep s = .ok ⟨{ f with ip := f.ip + 1 } :: rest,
        st ++ [numResult op x y], s.heap, s.globals, s.output⟩)
    ∧ (∀ (op : OpCode),
      (op = .Subtract ∨ op = .Multiply ∨ op = .Divide ∨ op = .Greater ∨
        op = .Less) →
      ch.code.get? f.ip = some op.toNat →
      (a.isNumber && b.isNumber) = false →
      vmStep s = .err "Operands must be numbers.".toList
        ⟨{ f with ip := f.ip + 1 } :: rest, st, s.heap, s.globals, s.output⟩)
    ∧ (∀ (pa pb : Nat) (sa sb : List Char),
      ch.code.get? f.ip = some OpCode.Add.toNat →
      a = .Obj pa → b = .Obj pb →
      s.heap.get? pa = some ⟨.String sa⟩ →
      s.heap.get? pb = some ⟨.String sb⟩ →
      vmStep s = .ok ⟨{ f with ip := f.ip + 1 } :: rest,
        st ++ [.Obj (s.heap.take_string (sa ++ sb)).2],
        (s.heap.take_string (sa ++ sb)).1, s.globals, s.output⟩
      ∧ (StrInv s.heap →
        (s.heap.take_string (sa ++ sb)).1.stringAt
          (s.heap.take_string (sa ++ sb)).2 = some (sa ++ sb)))
    ∧ (ch.code.get? f.ip = some OpCode.Add.toNat →
      (a.isNumber && b.isNumber) = false →
      (a.isObj && b.isObj) = false →
      vmStep s = .err "Operands must be two numbers or two strings".toList
        ⟨{ f with ip := f.ip + 1 } :: rest, st, s.heap, s.globals, s.output⟩)
    ∧ (∀ (pa pb : Nat) (oa ob : Obj),
      ch.code.get? f.ip = some OpCode.Add.toNat →
      a = .Obj pa → b = .Obj pb →
      s.heap.get? pa = some oa → s.heap.get? pb = some ob →
      (oa.isString && ob.isString) = false →
      vmStep s = .err "Operands must be two numbers or two strings".toList
        ⟨{ f with ip := f.ip + 1 } :: rest, st, s.heap, s.globals, s.output⟩) := by
  have hst2 : s.stack = (st ++ [a]) ++ [b] := by rw [hst]; simp
  refine ⟨?_, ?_, ?_, ?_, ?_⟩
  · intro op x y hop hcode ha hb
    subst ha; subst hb
    rcases hop with rfl | rfl | rfl | rfl | rfl | rfl
    case inr.inr.inr.inr.inr =>
      -- the Add opcode has its own dispatch arm, not binary_op!
      simp only [vmStep, hf, hch, hcode, ofNat?_toNat, execOp]
      rw [popv_snoc _ (st ++ [Value.Number x]) (Value.Number y)
          (by simp [VMState.withIp, hst])]
      simp only
      rw [popv_snoc _ st (Value.Number x) rfl]
      simp [VMState.push, numResult, VMState.withIp]
    all_goals
      simp only [vmStep, hf, hch, hcode, ofNat?_toNat, execOp]
      rw [binNum_spec_num _ st x y _ (by simp [VMState.withIp, hst])]
      simp [numResult, VMState.withIp]
  · intro op hop hcode hnum
    rcases hop with rfl | rfl | rfl | rfl | rfl <;>
    · simp only [vmStep, hf, hch, hcode, ofNat?_toNat, execOp]
      rw [binNum_spec_err _ st a b _ (by simp [VMState.withIp, hst]) hnum]
      simp [VMState.withIp]
  · intro pa pb sa sb hcode ha hb hpa hpb
    subst ha; subst hb
    constructor
    · simp only [vmStep, hf, hch, hcode, ofNat?_toNat, execOp]
      rw [popv_snoc _ (st ++ [Value.Obj pa]) (Value.Obj pb)
          (by simp [VMState.withIp, hst])]
      simp only
      rw [popv_snoc _ st (Value.Obj pa) rfl]
      simp [VMState.withIp, hpa, hpb, VMState.push]
    · intro hinv
      exact take_string_stringAt s.heap hinv (sa ++ sb)
  · intro hcode hnum hobj
    simp only [vmStep, hf, hch, hcode, ofNat?_toNat, execOp]
    rw [popv_snoc _ (st ++ [a]) b (by simp [VMState.withIp, hst])]
    simp only
    rw [popv_snoc _ st a rfl]
    cases a <;> cases b <;>
      simp_all [Value.isNumber, Value.isObj] <;>
      exact ⟨rfl, rfl, rfl, rfl⟩
  · intro pa pb oa ob hcode ha hb hpa hpb hstr
    subst ha; subst hb
    simp only [vmStep, hf, hch, hcode, ofNat?_toNat, execOp]
    rw [popv_snoc _ (st ++ [Value.Obj pa]) (Value.Obj pb)
        (by simp [VMState.withIp, hst])]
    simp only
    rw [popv_snoc _ st (Value.Obj pa) rfl]
    rcases oa with ⟨ka⟩
    rcases ob with ⟨kb⟩
    cases ka <;> cases kb <;> simp_all [Obj.isString, VMState.withIp]


theorem withIp_frames (s : VMState) (f : CallFrame) (rest : List CallFrame)
    (i : Nat) : (s.withIp f rest i).frames = { f with ip := i } :: rest := rfl

theorem withIp_stack (s : VMState) (f : CallFrame) (rest : List CallFrame)
    (i : Nat) : (s.withIp f rest i).stack = s.stack := rfl

theorem withIp_heap (s : VMState) (f : CallFrame) (rest : List CallFrame)
    (i : Nat) : (s.withIp f rest i).heap = s.heap := rfl

theorem withIp_globals (s : VMState) (f : CallFrame) (rest : List CallFrame)
    (i : Nat) : (s.withIp f rest i).globals = s.globals := rfl

theorem withIp_output (s : VMState) (f : CallFrame) (rest : List CallFrame)
    (i : Nat) : (s.withIp f rest i).output = s.output := rfl

theorem peek_some_lt (s : VMState) (d : Nat) (v : Value)
    (h : s.peek d = some v) : d < s.stack.length := by
  unfold VMState.peek at h
  by_contra hge
  rw [if_neg hge] at h
  exact Option.noConfusion h

/-- Concrete VM fixture for the C3 witness: a one-frame VM about to run a
`Subtract` with `5` and `2` on the stack. -/
def w3Chunk : Chunk := ⟨[OpCode.Subtract.toNat], [1], []⟩

def w3Heap : ObjHeap := ⟨[⟨.Function ⟨0, w3Chunk, none⟩⟩], []⟩

def w3State : VMState :=
  ⟨[⟨0, 0, 0⟩], [Value.Number 5, Value.Number 2], w3Heap, fun _ => none, []⟩

theorem C3_witness :
    vmStep w3State = .ok ⟨[⟨0, 1, 0⟩], [] ++ [numResult .Subtract 5 2],
      w3State.heap, w3State.globals, w3State.output⟩ :=
  (C3_binary_numeric_opcodes w3State ⟨0, 0, 0⟩ [] w3Chunk []
    (Value.Number 5) (Value.Number 2) rfl rfl rfl).1 .Subtract 5 2
    (Or.inl rfl) rfl rfl rfl

/-! ## Claim C4: the Call opcode -/

/-- C4: when the Call opcode's callee (the stack value just below the
`argc` arguments) is a Function object, then (i) matching arity below the
frame cap pushes a new CallFrame with base `stack_top − argc − 1` and
ip 0; (ii) an arity mismatch raises a RuntimeError naming expected and
actual counts; (iii) a call at the maximum frame depth (64) raises the
"stack overflow" RuntimeError. -/
theorem C4_call_frame_push
    (s : VMState) (f : CallFrame) (rest : List CallFrame) (ch : Chunk)
    (argc p : Nat) (fn : ObjFunction)
    (hf : s.frames = f :: rest)
    (hch : s.chunkOf f = some ch)
    (hcode : ch.code.get? f.ip = some OpCode.Call.toNat)
    (harg : ch.code.get? (f.ip + 1) = some argc)
    (hpeek : s.peek argc = some (.Obj p))
    (hobj : s.heap.get? p = some ⟨.Function fn⟩) :
    (fn.arity = argc → s.frames.length < 64 →
      vmStep s = .ok ⟨⟨p, 0, s.stack.length - argc - 1⟩ ::
        { f with ip := f.ip + 2 } :: rest, s.stack, s.heap, s.globals,
        s.output⟩)
    ∧ (fn.arity ≠ argc →
      vmStep s = .err ("Expected ".toList ++ natChars fn.arity ++
        " arguments, but got ".toList ++ natChars argc)
        ⟨{ f with ip := f.ip + 2 } :: rest, s.stack, s.heap, s.globals,
          s.output⟩)
    ∧ (fn.arity = argc → s.frames.length = 64 →
      vmStep s = .err "Stack overflow!".toList
        ⟨{ f with ip := f.ip + 2 } :: rest, s.stack, s.heap, s.globals,
          s.output⟩) := by
  have hlt : argc < s.stack.length := peek_some_lt s argc _ hpeek
  have hfl : s.frames.length = rest.length + 1 := by rw [hf]; simp
  refine ⟨?_, ?_, ?_⟩
  · intro ha hlen
    have hne : rest.length + 1 ≠ 64 := by omega
    have hle : argc + 1 ≤ s.stack.length := hlt
    simp only [vmStep, hf, hch, hcode, ofNat?_toNat, execOp, harg,
      peek_withIp, hpeek, callValue, withIp_heap, hobj, vmCall,
      withIp_frames, withIp_stack, List.length_cons, hle, ha]
    simp [hne, hle]
    exact ⟨rfl, rfl⟩
  · intro ha
    have hne : ¬ (argc = fn.arity) := fun hgg => ha hgg.symm
    simp only [vmStep, hf, hch, hcode, ofNat?_toNat, execOp, harg,
      peek_withIp, hpeek, callValue, withIp_heap, hobj, vmCall]
    simp [hne]
    rfl
  · intro ha hlen
    have h64 : rest.length + 1 = 64 := by omega
    simp only [vmStep, hf, hch, hcode, ofNat?_toNat, execOp, harg,
      peek_withIp, hpeek, callValue, withIp_heap, hobj, vmCall,
      withIp_frames, List.length_cons, ha]
    simp [h64]
    rfl

/-- Concrete VM fixture for the C4 witness: a zero-argument self call. -/
def w4Chunk : Chunk := ⟨[OpCode.Call.toNat, 0], [1, 1], []⟩

def w4Heap : ObjHeap := ⟨[⟨.Function ⟨0, w4Chunk, none⟩⟩], []⟩

def w4State : VMState :=
  ⟨[⟨0, 0, 0⟩], [Value.Obj 0], w4Heap, fun _ => none, []⟩

theorem C4_witness :
    vmStep w4State = .ok ⟨⟨0, 0, w4State.stack.length - 0 - 1⟩ ::
      { (⟨0, 0, 0⟩ : CallFrame) with ip := 0 + 2 } :: [], w4State.stack,
      w4State.heap, w4State.globals, w4State.output⟩ :=
  (C4_call_frame_push w4State ⟨0, 0, 0⟩ [] w4Chunk 0 0 ⟨0, w4Chunk, none⟩
    rfl rfl rfl rfl (by decide) rfl).1 rfl (by decide)


/-! ## Claim C6: global variable access -/

/-- C6: `GetGlobal` on a name absent from the global table, and
`SetGlobal` on a name never defined, raise a RuntimeError and leave the
global table unchanged (the error state carries `s.globals` itself);
`SetGlobal` on a defined name updates the table to the peeked stack-top
value, without popping it; `GetGlobal` on a present name pushes its
value. -/
theorem C6_global_access
    (s : VMState) (f : CallFrame) (rest : List CallFrame) (ch : Chunk)
    (cid name : Nat)
    (hf : s.frames = f :: rest)
    (hch : s.chunkOf f = some ch)
    (hcid : ch.code.get? (f.ip + 1) = some cid)
    (hconst : ch.constant cid = some (.Obj name)) :
    (ch.code.get? f.ip = some OpCode.GetGlobal.toNat →
      s.globals name = none →
      ∀ d, s.heap.ptrDisplay name = some d →
      vmStep s = .err ("Undefined variable '".toList ++ d ++ "'".toList)
        ⟨{ f with ip := f.ip + 2 } :: rest, s.stack, s.heap, s.globals,
          s.output⟩)
    ∧ (ch.code.get? f.ip = some OpCode.GetGlobal.toNat →
      ∀ v, s.globals name = some v →
      vmStep s = .ok ⟨{ f with ip := f.ip + 2 } :: rest, s.stack ++ [v],
        s.heap, s.globals, s.output⟩)
    ∧ (ch.code.get? f.ip = some OpCode.SetGlobal.toNat →
      s.globals name = none →
      ∀ d, s.heap.ptrDisplay name = some d →
      vmStep s = .err ("Undefined variable '".toList ++ d ++ "'".toList)
        ⟨{ f with ip := f.ip + 2 } :: rest, s.stack, s.heap, s.globals,
          s.output⟩)
    ∧ (ch.code.get? f.ip = some OpCode.SetGlobal.toNat →
      ∀ v, s.globals name = some v →
      ∀ w, s.peek 0 = some w →
      vmStep s = .ok ⟨{ f with ip := f.ip + 2 } :: rest, s.stack,
        s.heap, gInsert s.globals name w, s.output⟩) := by
  refine ⟨?_, ?_, ?_, ?_⟩
  · intro hcode habs d hdisp
    simp only [vmStep, hf, hch, hcode, ofNat?_toNat, execOp, hcid,
      hconst, withIp_globals, habs, withIp_heap, hdisp]
    rfl
  · intro hcode v hpres
    simp only [vmStep, hf, hch, hcode, ofNat?_toNat, execOp, hcid,
      hconst, withIp_globals, hpres, VMState.push, withIp_stack]
    rfl
  · intro hcode habs d hdisp
    simp only [vmStep, hf, hch, hcode, ofNat?_toNat, execOp, hcid,
      hconst, withIp_globals, habs, withIp_heap, hdisp]
    rfl
  · intro hcode v hpres w hpeekw
    simp only [vmStep, hf, hch, hcode, ofNat?_toNat, execOp, hcid,
      hconst, withIp_globals, hpres, peek_withIp, hpeekw]
    rfl

/-- Concrete VM fixture for the C6 witness: `GetGlobal` of an undefined
name. -/
def w6Chunk : Chunk :=
  ⟨[OpCode.GetGlobal.toNat, 0], [1, 1], [Value.Obj 1]⟩

def w6Heap : ObjHeap :=
  ⟨[⟨.Function ⟨0, w6Chunk, none⟩⟩, ⟨.String ['x']⟩], [(['x'], 1)]⟩

def w6State : VMState := ⟨[⟨0, 0, 0⟩], [], w6Heap, fun _ => none, []⟩

theorem C6_witness :
    vmStep w6State =
      .err ("Undefined variable '".toList ++ "x (1)".toList ++ "'".toList)
        ⟨[⟨0, 2, 0⟩], w6State.stack, w6State.heap, w6State.globals,
          w6State.output⟩ :=
  (C6_global_access w6State ⟨0, 0, 0⟩ [] w6Chunk 0 1 rfl rfl rfl rfl).1
    rfl rfl ("x (1)".toList) (by decide)

/-! ## Claim C7: JumpIfFalse peeks; Jump and Loop adjust only the ip -/

/-- C7: `JumpIfFalse` peeks (does not pop) the top of stack and adds its
16-bit operand to the active frame's instruction pointer only when the
peeked value is falsey; `Jump` unconditionally adds its operand; `Loop`
unconditionally subtracts its operand.  All three leave the operand
stack, the heap and the global table unchanged and mutate only the
active frame's instruction pointer. -/
theorem C7_jump_opcodes
    (s : VMState) (f : CallFrame) (rest : List CallFrame) (ch : Chunk)
    (hi lo : Nat)
    (hf : s.frames = f :: rest)
    (hch : s.chunkOf f = some ch)
    (hhi : ch.code.get? (f.ip + 1) = some hi)
    (hlo : ch.code.get? (f.ip + 2) = some lo) :
    (ch.code.get? f.ip = some OpCode.JumpIfFalse.toNat →
      ∀ v, s.peek 0 = some v →
      vmStep s = .ok ⟨{ f with ip :=
          if v.is_falsey then f.ip + 3 + (hi * 256 + lo) else f.ip + 3 }
        :: rest, s.stack, s.heap, s.globals, s.output⟩)
    ∧ (ch.code.get? f.ip = some OpCode.Jump.toNat →
      vmStep s = .ok ⟨{ f with ip := f.ip + 3 + (hi * 256 + lo) } :: rest,
        s.stack, s.heap, s.globals, s.output⟩)
    ∧ (ch.code.get? f.ip = some OpCode.Loop.toNat →
      hi * 256 + lo ≤ f.ip + 3 →
      vmStep s = .ok ⟨{ f with ip := f.ip + 3 - (hi * 256 + lo) } :: rest,
        s.stack, s.heap, s.globals, s.output⟩) := by
  have hh2 : ch.code.get? (f.ip + 1 + 1) = some lo := by
    have : f.ip + 1 + 1 = f.ip + 2 := by omega
    rw [this]; exact hlo
  refine ⟨?_, ?_, ?_⟩
  · intro hcode v hpeek
    simp only [vmStep, hf, hch, hcode, ofNat?_toNat, execOp, hhi, hh2,
      peek_withIp, hpeek]
    cases hfa : v.is_falsey <;> simp [hfa] <;> rfl
  · intro hcode
    simp only [vmStep, hf, hch, hcode, ofNat?_toNat, execOp, hhi, hh2]
    rfl
  · intro hcode hle
    have hle' : hi * 256 + lo ≤ f.ip + 1 + 2 := by omega
    simp only [vmStep, hf, hch, hcode, ofNat?_toNat, execOp, hhi, hh2,
      hle', if_pos]
    rfl

/-- Concrete VM fixture for the C7 witness: `JumpIfFalse` over a falsey
top of stack. -/
def w7Chunk : Chunk := ⟨[OpCode.JumpIfFalse.toNat, 0, 5], [1, 1, 1], []⟩

def w7Heap : ObjHeap := ⟨[⟨.Function ⟨0, w7Chunk, none⟩⟩], []⟩

def w7State : VMState :=
  ⟨[⟨0, 0, 0⟩], [Value.Bool false], w7Heap, fun _ => none, []⟩

theorem C7_witness :
    vmStep w7State = .ok ⟨[⟨0,
        if (Value.Bool false).is_falsey then 0 + 3 + (0 * 256 + 5)
        else 0 + 3, 0⟩],
      w7State.stack, w7State.heap, w7State.globals, w7State.output⟩ :=
  (C7_jump_opcodes w7State ⟨0, 0, 0⟩ [] w7Chunk 0 5 rfl rfl rfl rfl).1
    rfl (Value.Bool false) (by decide)


/-! ## Scanner (`scanner.rs`) -/

/-- Token kinds, as in `scanner.rs`. -/
inductive TokenType
  | LeftParen | RightParen | LeftBrace | RightBrace | Comma | Dot
  | Minus | Plus | Semicolon | Slash | Star
  | Bang | BangEqual | Equal | EqualEqual
  | Greater | GreaterEqual | Less | LessEqual
  | Identifier | String | Number
  | And | Class | Else | False | Fun | For | If | Nil | Or
  | Print | Return | Super | This | True | Var | While
  | EOF | NOOP | Error
  deriving DecidableEq, Repr

/-- A scanned token: kind, source slice and line. -/
structure Token where
  typ : TokenType
  str : List Char
  line : Nat
  deriving DecidableEq, Repr

/-- Scanner state: the `start` slice (re-sliced at each `scan_token`),
the cursor into it and the current line. -/
structure ScanState where
  start : List Char
  current : Nat
  line : Nat
  deriving DecidableEq, Repr

def ScanState.isAtEnd (s : ScanState) : Bool := s.start.length ≤ s.current

/-- The scanner's `peek`: `None` at end of input. -/
def ScanState.peekc (s : ScanState) : Option Char :=
  if s.isAtEnd then none else s.start.get? s.current

/-- The scanner's `peek_next`.  The outer `none` models the `char_at`
panic: when not at end but `current + 1` is past the end, the Rust
`chars().nth(..).expect(..)` aborts. -/
def ScanState.peekNext (s : ScanState) : Option (Option Char) :=
  if s.isAtEnd then some none
  else
    match s.start.get? (s.current + 1) with
    | some c => some (some c)
    | none => none

def ScanState.bump (s : ScanState) : ScanState :=
  { s with current := s.current + 1 }

def ScanState.makeToken (s : ScanState) (t : TokenType) : Token :=
  ⟨t, s.start.take s.current, s.line⟩

def ScanState.errorToken (s : ScanState) (msg : List Char) : Token :=
  ⟨.Error, msg, s.line⟩

def isAlphaC (c : Char) : Bool := c.isAlpha || c = '_'

/-- The line-comment loop inside `skip_whitespace`: advance until a
newline or the end of input. -/
def skipLineComment : Nat → ScanState → ScanState
  | 0, s => s
  | n + 1, s =>
    match s.peekc with
    | some c => if c = '\n' then s else skipLineComment n s.bump
    | none => s

/-- The `skip_whitespace` loop.  `Char.isWhitespace` stands in for the
Rust Unicode `char::is_whitespace` (they agree on ASCII input; the
newline is handled by the preceding arm in both). -/
def skipWs : Nat → ScanState → Option ScanState
  | 0, _ => none
  | n + 1, s =>
    match s.peekc with
    | some '/' =>
      match s.peekNext with
      | none => none
      | some (some '/') => skipWs n (skipLineComment (s.start.length + 1) s)
      | some _ => some s
    | some '\n' => skipWs n { s.bump with line := s.line + 1 }
    | some c => if c.isWhitespace then skipWs n s.bump else some s
    | none => some s

/-- Keyword suffix check (`check_keyword`). -/
def checkKeyword (s : ScanState) (start length : Nat) (rest : List Char)
    (t : TokenType) : TokenType :=
  if s.current = start + length ∧ (s.start.drop start).take length = rest
  then t else .Identifier

/-- The keyword trie (`identifier_type`).  `char_at(0)` cannot fail here
in the source (one char was already consumed); the default covers it. -/
def identifierType (s : ScanState) : TokenType :=
  match s.start.get? 0 with
  | some 'a' => checkKeyword s 1 2 "nd".toList .And
  | some 'c' => checkKeyword s 1 4 "lass".toList .Class
  | some 'e' => checkKeyword s 1 3 "lse".toList .Else
  | some 'i' => checkKeyword s 1 1 "f".toList .If
  | some 'n' => checkKeyword s 1 2 "il".toList .Nil
  | some 'o' => checkKeyword s 1 1 "r".toList .Or
  | some 'p' => checkKeyword s 1 4 "rint".toList .Print
  | some 'r' => checkKeyword s 1 5 "eturn".toList .Return
  | some 's' => checkKeyword s 1 4 "uper".toList .Super
  | some 'v' => checkKeyword s 1 2 "ar".toList .Var
  | some 'w' => checkKeyword s 1 4 "hile".toList .While
  | some 'f' =>
    if 1 < s.current then
      match s.start.get? 1 with
      | some 'a' => checkKeyword s 2 3 "lse".toList .False
      | some 'o' => checkKeyword s 2 1 "r".toList .For
      | some 'u' => checkKeyword s 2 1 "n".toList .Fun
      | _ => .Identifier
    else .Identifier
  | some 't' =>
    if 1 < s.current then
      match s.start.get? 1 with
      | some 'h' => checkKeyword s 2 2 "is".toList .This
      | some 'r' => checkKeyword s 2 2 "ue".toList .True
      | _ => .Identifier
    else .Identifier
  | _ => .Identifier

/-- The identifier loop (`identifier`). -/
def identLoop : Nat → ScanState → ScanState
  | 0, s => s
  | n + 1, s =>
    match s.peekc with
    | some c =>
      if isAlphaC c || c.isDigit then identLoop n s.bump else s
    | none => s

/-- The digit loop inside `number`. -/
def digitLoop : Nat → ScanState → ScanState
  | 0, s => s
  | n + 1, s =>
    match s.peekc with
    | some c => if c.isDigit then digitLoop n s.bump else s
    | none => s

/-- The `number` token scanner; `none` models the `peek_next` panic. -/
def numberTok (s : ScanState) : Option (ScanState × Token) :=
  let s := digitLoop (s.start.length + 1) s
  match s.peekc with
  | some '.' =>
    match s.peekNext with
    | none => none
    | some (some c) =>
      if c.isDigit then
        let s := s.bump
        let s := digitLoop (s.start.length + 1) s
        some (s, s.makeToken .Number)
      else some (s, s.makeToken .Number)
    | some none => some (s, s.makeToken .Number)
  | _ => some (s, s.makeToken .Number)

/-- The body loop of `string`: scan to the closing quote or the end. -/
def stringLoop : Nat → ScanState → ScanState
  | 0, s => s
  | n + 1, s =>
    match s.peekc with
    | some '"' => s
    | some c =>
      stringLoop n { s.bump with line := if c = '\n' then s.line + 1 else s.line }
    | none => s

/-- The `string` token scanner. -/
def stringTok (s : ScanState) : ScanState × Token :=
  let s := stringLoop (s.start.length + 1) s
  if s.isAtEnd then (s, s.errorToken "Unterminated string.".toList)
  else (s.bump, s.bump.makeToken .String)

/-- The scanner's `next_match`. -/
def ScanState.nextMatch (s : ScanState) (expected : Char) :
    ScanState × Bool :=
  if s.isAtEnd then (s, false)
  else
    match s.start.get? s.current with
    | some c => if c = expected then (s.bump, true) else (s, false)
    | none => (s, false)

/-- One pull of the token stream (`Scanner::scan_token`): skip
whitespace, re-slice `start`, then dispatch on the first character. -/
def scanToken (s0 : ScanState) : Option (ScanState × Token) := do
  let s ← skipWs (s0.start.length + 2) s0
  let s : ScanState := ⟨s.start.drop s.current, 0, s.line⟩
  if s.isAtEnd then
    return (s, s.makeToken .EOF)
  else
    match s.start.get? s.current with
    | none => none
    | some c =>
      let s := s.bump
      match c with
      | '(' => some (s, s.makeToken .LeftParen)
      | ')' => some (s, s.makeToken .RightParen)
      | '\x7b' => some (s, s.makeToken .LeftBrace)
      | '\x7d' => some (s, s.makeToken .RightBrace)
      | ';' => some (s, s.makeToken .Semicolon)
      | ',' => some (s, s.makeToken .Comma)
      | '.' => some (s, s.makeToken .Dot)
      | '-' => some (s, s.makeToken .Minus)
      | '+' => some (s, s.makeToken .Plus)
      | '/' => some (s, s.makeToken .Slash)
      | '*' => some (s, s.makeToken .Star)
      | '!' =>
        let sm := s.nextMatch '='
        some (sm.1, sm.1.makeToken (if sm.2 then .BangEqual else .Bang))
      | '=' =>
        let sm := s.nextMatch '='
        some (sm.1, sm.1.makeToken (if sm.2 then .EqualEqual else .Equal))
      | '<' =>
        let sm := s.nextMatch '='
        some (sm.1, sm.1.makeToken (if sm.2 then .LessEqual else .Less))
      | '>' =>
        let sm := s.nextMatch '='
        some (sm.1, sm.1.makeToken (if sm.2 then .GreaterEqual else .Greater))
      | '"' => some (stringTok s)
      | c =>
        if c.isDigit then numberTok s
        else if isAlphaC c then
          let s := identLoop (s.start.length + 1) s
          some (s, s.makeToken (identifierType s))
        else some (s, s.errorToken "Unexpected character.".toList)


/-! ## Compiler (`compiler.rs`) -/

/-- Compilation context kind (`FunctionType`). -/
inductive FunctionType
  | Function
  | Script
  deriving DecidableEq, Repr

/-- A compile-time local (`Local`): declaring token and scope depth,
`-1` meaning declared-but-uninitialized. -/
structure Local where
  name : Token
  depth : Int
  deriving DecidableEq, Repr

/-- A per-function compiler context (`Compiler`). -/
structure Compiler where
  function : ObjFunction
  function_type : FunctionType
  locals : List Local
  scope_depth : Int
  deriving DecidableEq, Repr

/-- `Compiler::new`: slot 0 is reserved by a blank local; the function
name is only recorded for non-script contexts. -/
def Compiler.new (ftype : FunctionType) (name : Option (List Char)) :
    Compiler :=
  let fn := ObjFunction.new
  let fn := if ftype ≠ .Script then { fn with name := name } else fn
  { function := fn, function_type := ftype,
    locals := [⟨⟨.Identifier, [], 0⟩, 0⟩], scope_depth := 0 }

/-- Reverse scan of the locals for `resolve_local`: index of the first
match from the end, plus the uninitialized-self-reference error. -/
def resolveLocalAux : List (Nat × Local) → List Char →
    Option Nat × Option (List Char)
  | [], _ => (none, none)
  | (i, l) :: rest, nm =>
    if l.name.str = nm then
      (some i, if l.depth = -1
        then some "Cannot read local variable in its own initializer".toList
        else none)
    else resolveLocalAux rest nm

/-- `Compiler::resolve_local`: nearest-declaration-wins reverse linear
scan by name. -/
def Compiler.resolve_local (c : Compiler) (name : Token) :
    Option Nat × Option (List Char) :=
  resolveLocalAux c.locals.enum.reverse name.str

/-- Parser state (`Parser`). -/
structure PState where
  scanner : ScanState
  current : Token
  previous : Token
  had_error : Bool
  panic_mode : Bool
  heap : ObjHeap
  compiler : Compiler
  deriving Repr

/-- `Parser::error_at`: panic-mode suppresses cascades; otherwise the
error flag is set.  The printed diagnostic text goes to stderr and is
not modelled; the token and message arguments are kept for shape. -/
def errorAt (p : PState) (_tok : Token) (_msg : List Char) : PState :=
  if p.panic_mode then p
  else { p with panic_mode := true, had_error := true }

/-- `Parser::error` (error at the previous token). -/
def errorP (p : PState) (msg : List Char) : PState := errorAt p p.previous msg

/-- `Parser::error_at_current`. -/
def errorAtCurrent (p : PState) (msg : List Char) : PState :=
  errorAt p p.current msg

/-- The scan loop inside `Parser::advance`: pull tokens, reporting and
skipping Error tokens.  Each Error token consumes at least one source
character, so the fuel `advanceP` supplies cannot run out. -/
def advanceLoop : Nat → PState → Option PState
  | 0, _ => none
  | n + 1, p => do
    let st ← scanToken p.scanner
    let p := { p with scanner := st.1, current := st.2 }
    if st.2.typ = .Error then advanceLoop n (errorAtCurrent p st.2.str)
    else some p

/-- `Parser::advance`: previous takes the current token, then scan. -/
def advanceP (p : PState) : Option PState :=
  advanceLoop (p.scanner.start.length + 2) { p with previous := p.current }

/-- `Parser::consume`. -/
def consume (p : PState) (t : TokenType) (msg : List Char) :
    Option PState :=
  if p.current.typ = t then advanceP p
  else some (errorAtCurrent p msg)

/-- `Parser::match_token`. -/
def matchToken (p : PState) (t : TokenType) : Option (PState × Bool) :=
  if p.current.typ ≠ t then some (p, false)
  else do
    let p ← advanceP p
    some (p, true)

/-- `Parser::check`. -/
def check (p : PState) (t : TokenType) : Bool := p.current.typ = t

def setChunk (p : PState) (ch : Chunk) : PState :=
  { p with compiler := { p.compiler with
      function := { p.compiler.function with chunk := ch } } }

/-- `Parser::current_chunk`. -/
def currentChunk (p : PState) : Chunk := p.compiler.function.chunk

/-- `Parser::emit_byte`: writes at the previous token's line. -/
def emitByte (p : PState) (b : Nat) : PState :=
  setChunk p ((currentChunk p).write b p.previous.line)

def emitOpcode (p : PState) (op : OpCode) : PState := emitByte p op.toNat

def emitOpcodes (p : PState) (o1 o2 : OpCode) : PState :=
  emitOpcode (emitOpcode p o1) o2

def emitReturn (p : PState) : PState := emitOpcode p .Return

def emitOpcodeByte (p : PState) (op : OpCode) (b : Nat) : PState :=
  emitByte (emitOpcode p op) b

/-- `Parser::make_constant`; `none` propagates the `add_constant`
panic. -/
def makeConstant (p : PState) (v : Value) : Option (PState × Nat) :=
  match (currentChunk p).add_constant v with
  | none => none
  | some (ch, idx) => some (setChunk p ch, idx)

/-- `Parser::emit_constant`. -/
def emitConstant (p : PState) (v : Value) : Option PState := do
  let pc ← makeConstant p v
  some (emitOpcodeByte pc.1 .Constant pc.2)

/-- `Parser::identifier_constant`: intern the name, then add the handle
to the constant pool. -/
def identifierConstant (p : PState) (name : Token) :
    Option (PState × Nat) :=
  let hp := p.heap.copy_string name.str
  makeConstant { p with heap := hp.1 } (.Obj hp.2)

/-- `Parser::begin_scope`. -/
def beginScope (p : PState) : PState :=
  { p with compiler := { p.compiler with
      scope_depth := p.compiler.scope_depth + 1 } }

def dropLastLocal (p : PState) : PState :=
  { p with compiler := { p.compiler with
      locals := p.compiler.locals.dropLast } }

/-- The pop loop of `Parser::end_scope`: discard locals deeper than the
new scope depth, one `Pop` opcode each. -/
def endScopeLoop : Nat → PState → PState
  | 0, p => p
  | n + 1, p =>
    match p.compiler.locals.getLast? with
    | some l =>
      if l.depth > p.compiler.scope_depth then
        endScopeLoop n (dropLastLocal (emitOpcode p .Pop))
      else p
    | none => p

/-- `Parser::end_scope`. -/
def endScope (p : PState) : PState :=
  let p := { p with compiler := { p.compiler with
      scope_depth := p.compiler.scope_depth - 1 } }
  endScopeLoop (p.compiler.locals.length + 1) p

/-- `Parser::add_local`: a 257th local is a compile error. -/
def addLocal (p : PState) (name : Token) : PState :=
  if p.compiler.locals.length = 256 then
    errorP p "Too many local variables in function".toList
  else
    { p with compiler := { p.compiler with
        locals := p.compiler.locals ++ [⟨name, -1⟩] } }

/-- The duplicate-in-scope scan of `declare_variable` (over the locals in
reverse, stopping at an initialized shallower local). -/
def declaredScan : List Local → Int → List Char → Bool
  | [], _, _ => false
  | l :: rest, d, nm =>
    if l.depth ≠ -1 ∧ l.depth < d then false
    else if l.name.str = nm then true
    else declaredScan rest d nm

/-- `Parser::declare_variable`: globals are implicit; duplicate locals in
one scope are a compile error. -/
def declareVariable (p : PState) : PState :=
  if p.compiler.scope_depth = 0 then p
  else
    let name := p.previous
    let ex := declaredScan p.compiler.locals.reverse p.compiler.scope_depth
      name.str
    let p := if ex then
        errorP p "Variable with this name already declared in this scope".toList
      else p
    addLocal p name

/-- `Parser::mark_initialized`: set the last local's depth to the current
scope.  (`last_mut().unwrap()` cannot fail: slot 0 is always present.) -/
def markInitialized (p : PState) : PState :=
  if p.compiler.scope_depth = 0 then p
  else
    match p.compiler.locals.getLast? with
    | some l =>
      { p with compiler := { p.compiler with
          locals := p.compiler.locals.dropLast ++
            [{ l with depth := p.compiler.scope_depth }] } }
    | none => p

/-- `Parser::parse_variable`. -/
def parseVariable (p : PState) (msg : List Char) : Option (PState × Nat) := do
  let p ← consume p .Identifier msg
  let p := declareVariable p
  if p.compiler.scope_depth > 0 then some (p, 0)
  else identifierConstant p p.previous

/-- `Parser::define_variable`. -/
def defineVariable (p : PState) (global : Nat) : PState :=
  if p.compiler.scope_depth > 0 then markInitialized p
  else emitOpcodeByte p .DefineGlobal global

/-- `Parser::emit_jump`: opcode plus a 0xFFFF placeholder; returns the
placeholder's offset. -/
def emitJump (p : PState) (op : OpCode) : PState × Nat :=
  let p := emitOpcode p op
  let p := emitByte p 0xff
  let p := emitByte p 0xff
  (p, (currentChunk p).code.length - 2)

/-- `Parser::emit_loop`. -/
def emitLoop (p : PState) (loopStart : Nat) : PState :=
  let p := emitOpcode p .Loop
  let offset := (currentChunk p).code.length - loopStart + 2
  let p := if offset > 0xffff then errorP p "Loop body too large".toList
    else p
  let p := emitByte p ((offset >>> 8) &&& 0xff)
  emitByte p (offset &&& 0xff)

/-- `Parser::patch_jump`: overwrite the two placeholder bytes with the
now-known distance (reporting an error past 0xFFFF, but writing the
truncated bytes either way, as the source does). -/
def patchJump (p : PState) (offset : Nat) : PState :=
  let jump := (currentChunk p).code.length - offset - 2
  let p := if jump > 0xffff then
      errorP p "Too much code to jump over".toList
    else p
  let p := setChunk p ((currentChunk p).patch_byte offset
    ((jump >>> 8) &&& 0xff))
  setChunk p ((currentChunk p).patch_byte (offset + 1) (jump &&& 0xff))

/-- The loop of `Parser::synchronize`. -/
def synchronizeLoop : Nat → PState → Option PState
  | 0, _ => none
  | n + 1, p =>
    if p.current.typ = .EOF then some p
    else if p.previous.typ = .Semicolon then some p
    else
      match p.current.typ with
      | .Class | .Fun | .Var | .For | .If | .While | .Print | .Return =>
        some p
      | _ => do
        let p ← advanceP p
        synchronizeLoop n p

/-- `Parser::synchronize`: drop panic mode and skip to a statement
boundary. -/
def synchronize (p : PState) : Option PState :=
  synchronizeLoop (p.scanner.start.length + 2) { p with panic_mode := false }

/-- Operator precedence levels (`Precedence`). -/
inductive Precedence
  | None | Assignment | Or | And | Equality | Comparison | Term | Factor
  | Unary | Call | Primary
  deriving DecidableEq, Repr

def Precedence.toNat : Precedence → Nat
  | .None => 0 | .Assignment => 1 | .Or => 2 | .And => 3 | .Equality => 4
  | .Comparison => 5 | .Term => 6 | .Factor => 7 | .Unary => 8
  | .Call => 9 | .Primary => 10

/-- `TryFromPrimitive` for `Precedence` (used by `binary` for "one level
higher"); `none` is the `unwrap` panic. -/
def Precedence.ofNat? : Nat → Option Precedence
  | 0 => some .None | 1 => some .Assignment | 2 => some .Or
  | 3 => some .And | 4 => some .Equality | 5 => some .Comparison
  | 6 => some .Term | 7 => some .Factor | 8 => some .Unary
  | 9 => some .Call | 10 => some .Primary
  | _ => none

/-- Precedence comparison (`<=` on the `u8` discriminants). -/
def pLe (a b : Precedence) : Bool := a.toNat ≤ b.toNat

/-- Tags for the Pratt-rule handler function pointers (`ParserFn`). -/
inductive PFn
  | grouping | unary | binary | number | stringLit | literal | varRef
  | andOp | orOp | call
  deriving DecidableEq, Repr

/-- A parse-rule row (`ParseRule`): `pre`/`inf` are the source's
prefix/infix handler slots. -/
structure ParseRule where
  pre : Option PFn
  inf : Option PFn
  prec : Precedence
  deriving DecidableEq, Repr

/-- The rule table (`get_rule`), row for row. -/
def getRule (t : TokenType) : ParseRule :=
  match t with
  | .LeftParen => ⟨some .grouping, some .call, .Call⟩
  | .RightParen => ⟨none, none, .None⟩
  | .LeftBrace => ⟨none, none, .None⟩
  | .RightBrace => ⟨none, none, .None⟩
  | .Comma => ⟨none, none, .None⟩
  | .Dot => ⟨none, none, .None⟩
  | .Minus => ⟨some .unary, some .binary, .Term⟩
  | .Plus => ⟨some .unary, some .binary, .Term⟩
  | .Semicolon => ⟨none, none, .None⟩
  | .Slash => ⟨none, some .binary, .Factor⟩
  | .Star => ⟨none, some .binary, .Factor⟩
  | .Bang => ⟨some .unary, none, .None⟩
  | .BangEqual => ⟨none, some .binary, .Equality⟩
  | .Equal => ⟨none, none, .None⟩
  | .EqualEqual => ⟨none, some .binary, .Equality⟩
  | .Greater => ⟨none, some .binary, .Comparison⟩
  | .GreaterEqual => ⟨none, some .binary, .Comparison⟩
  | .Less => ⟨none, some .binary, .Comparison⟩
  | .LessEqual => ⟨none, some .binary, .Comparison⟩
  | .Identifier => ⟨some .varRef, none, .None⟩
  | .String => ⟨some .stringLit, none, .None⟩
  | .Number => ⟨some .number, none, .None⟩
  | .And => ⟨none, some .andOp, .And⟩
  | .Class => ⟨none, none, .None⟩
  | .Else => ⟨none, none, .None⟩
  | .False => ⟨some .literal, none, .None⟩
  | .For => ⟨none, none, .None⟩
  | .Fun => ⟨none, none, .None⟩
  | .If => ⟨none, none, .None⟩
  | .Nil => ⟨some .literal, none, .None⟩
  | .Or => ⟨none, some .orOp, .Or⟩
  | .Print => ⟨none, none, .None⟩
  | .Return => ⟨none, none, .None⟩
  | .Super => ⟨none, none, .None⟩
  | .This => ⟨none, none, .None⟩
  | .True => ⟨some .literal, none, .None⟩
  | .Var => ⟨none, none, .None⟩
  | .While => ⟨none, none, .None⟩
  | .Error => ⟨none, none, .None⟩
  | .EOF => ⟨none, none, .None⟩
  | .NOOP => ⟨none, none, .None⟩

def digitsVal (cs : List Char) : Nat :=
  cs.foldl (fun acc c => acc * 10 + (c.toNat - 48)) 0

/-- Value of a `Number` token, modelling `str.parse::<f64>().unwrap()` on
the digit-dot-digit slices the scanner produces (exact on the integral
values the claims use): the digits before the dot plus the fraction
digits over the matching power of ten. -/
def parseNum (cs : List Char) : ℚ :=
  let intPart := cs.takeWhile (fun c => c ≠ '.')
  let frac := (cs.dropWhile (fun c => c ≠ '.')).drop 1
  mkRat (digitsVal intPart * 10 ^ frac.length + digitsVal frac)
    (10 ^ frac.length)

/-- `Parser::number`. -/
def numberFn (p : PState) (_canAssign : Bool) : Option PState :=
  emitConstant p (.Number (parseNum p.previous.str))

/-- `Parser::literal`; `none` is the `unreachable!`. -/
def literal (p : PState) (_canAssign : Bool) : Option PState :=
  match p.previous.typ with
  | .False => some (emitOpcode p .False)
  | .True => some (emitOpcode p .True)
  | .Nil => some (emitOpcode p .Nil)
  | _ => none

/-- `Parser::string`: intern the slice without its quotes, emit it as a
constant. -/
def stringLit (p : PState) (_canAssign : Bool) : Option PState :=
  let content := (p.previous.str.drop 1).dropLast
  let hp := p.heap.copy_string content
  emitConstant { p with heap := hp.1 } (.Obj hp.2)

/-- `Parser::end_compiler`: emit the implicit Return, hand back the
finished function (the `PRINT_CODE` disassembly is diagnostic-only). -/
def endCompiler (p : PState) : PState × ObjFunction :=
  let p := emitReturn p
  (p, p.compiler.function)


/-! The recursive grammar functions.  The source's mutual recursion
(`parse_precedence` dispatching through the rule table, statements
recursing into declarations, nested function bodies) is fuelled: the
functions at fuel `n + 1` call the functions at fuel `n`, and fuel 0 is
`none`, merged with the panic outcome.  They are packaged as a record of
functions built by one linear recursion on the fuel (rather than a
27-way mutual definition) so that the kernel can evaluate concrete runs;
the per-level bodies below are the line-for-line translation of
`compiler.rs`. -/

structure ParserFns where
  parsePrecedence : Precedence → PState → Option PState
  infixLoop : Precedence → Bool → PState → Option PState
  runPFn : PFn → Bool → PState → Option PState
  grouping : Bool → PState → Option PState
  unary : Bool → PState → Option PState
  binary : Bool → PState → Option PState
  varRef : Bool → PState → Option PState
  namedVariable : Token → Bool → PState → Option PState
  finishNamed : Bool → PState → Nat → OpCode → OpCode → Option PState
  andOp : Bool → PState → Option PState
  orOp : Bool → PState → Option PState
  callOp : Bool → PState → Option PState
  argumentList : PState → Option (PState × Nat)
  argLoop : PState → Nat → Option (PState × Nat)
  expression : PState → Option PState
  blockFn : PState → Option PState
  declaration : PState → Option PState
  statement : PState → Option PState
  funDeclaration : PState → Option PState
  functionCompile : FunctionType → PState → Option PState
  paramLoop : PState → Option PState
  varDeclaration : PState → Option PState
  expressionStatement : PState → Option PState
  printStatement : PState → Option PState
  ifStatement : PState → Option PState
  whileStatement : PState → Option PState
  forStatement : PState → Option PState

/-- Out-of-fuel bottom: every call is `none`. -/
def parserFns0 : ParserFns where
  parsePrecedence := fun _ _ => none
  infixLoop := fun _ _ _ => none
  runPFn := fun _ _ _ => none
  grouping := fun _ _ => none
  unary := fun _ _ => none
  binary := fun _ _ => none
  varRef := fun _ _ => none
  namedVariable := fun _ _ _ => none
  finishNamed := fun _ _ _ _ _ => none
  andOp := fun _ _ => none
  orOp := fun _ _ => none
  callOp := fun _ _ => none
  argumentList := fun _ => none
  argLoop := fun _ _ => none
  expression := fun _ => none
  blockFn := fun _ => none
  declaration := fun _ => none
  statement := fun _ => none
  funDeclaration := fun _ => none
  functionCompile := fun _ _ => none
  paramLoop := fun _ => none
  varDeclaration := fun _ => none
  expressionStatement := fun _ => none
  printStatement := fun _ => none
  ifStatement := fun _ => none
  whileStatement := fun _ => none
  forStatement := fun _ => none

/-- One fuel level of every grammar function; `prev` is the next level
down. -/
def parserFnsStep (prev : ParserFns) : ParserFns where
  /- `Parser::parse_precedence` -/
  parsePrecedence := fun prec p => do
    let p ← advanceP p
    match (getRule p.previous.typ).pre with
    | none => some (errorP p "Expect expression".toList)
    | some fn => do
      let canAssign := pLe prec .Assignment
      let p ← prev.runPFn fn canAssign p
      let p ← prev.infixLoop prec canAssign p
      if canAssign then do
        let pm ← matchToken p .Equal
        if pm.2 then some (errorP pm.1 "Invalid assignment target".toList)
        else some pm.1
      else some p
  /- the infix loop of `parse_precedence`; the `none` on a missing infix
  handler is the source's `.unwrap()` -/
  infixLoop := fun prec canAssign p =>
    if pLe prec (getRule p.current.typ).prec then do
      let p ← advanceP p
      match (getRule p.previous.typ).inf with
      | none => none
      | some fn => do
        let p ← prev.runPFn fn canAssign p
        prev.infixLoop prec canAssign p
    else some p
  /- dispatch through a rule-table function pointer -/
  runPFn := fun fn canAssign p =>
    match fn with
    | .grouping => prev.grouping canAssign p
    | .unary => prev.unary canAssign p
    | .binary => prev.binary canAssign p
    | .number => numberFn p canAssign
    | .stringLit => stringLit p canAssign
    | .literal => literal p canAssign
    | .varRef => prev.varRef canAssign p
    | .andOp => prev.andOp canAssign p
    | .orOp => prev.orOp canAssign p
    | .call => prev.callOp canAssign p
  /- `Parser::grouping` -/
  grouping := fun _ p => do
    let p ← prev.expression p
    consume p .RightParen "Expected ')' after expression".toList
  /- `Parser::unary`: parse the operand at Unary precedence, then emit
  for `-` and `!`; a prefix `+` emits nothing; `none` is the
  `unreachable!` -/
  unary := fun _ p =>
    let operatorType := p.previous.typ
    (prev.parsePrecedence .Unary p).bind (fun p =>
      match operatorType with
      | .Minus => some (emitOpcode p .Negate)
      | .Bang => some (emitOpcode p .Not)
      | .Plus => some p
      | _ => none)
  /- `Parser::binary` -/
  binary := fun _ p =>
    let operatorType := p.previous.typ
    let rule := getRule operatorType
    match Precedence.ofNat? (rule.prec.toNat + 1) with
    | none => none
    | some nextPrec => do
      let p ← prev.parsePrecedence nextPrec p
      match operatorType with
      | .Plus => some (emitOpcode p .Add)
      | .Minus => some (emitOpcode p .Subtract)
      | .Star => some (emitOpcode p .Multiply)
      | .Slash => some (emitOpcode p .Divide)
      | .BangEqual => some (emitOpcodes p .Equal .Not)
      | .EqualEqual => some (emitOpcode p .Equal)
      | .Greater => some (emitOpcode p .Greater)
      | .GreaterEqual => some (emitOpcodes p .Less .Not)
      | .Less => some (emitOpcode p .Less)
      | .LessEqual => some (emitOpcodes p .Greater .Not)
      | _ => none
  /- `Parser::variable` -/
  varRef := fun canAssign p => prev.namedVariable p.previous canAssign p
  /- `Parser::named_variable`: locals first (reverse scan), falling back
  to a runtime-resolved global; the `none` on an index above 255 models
  the `try_into().unwrap()` inside `resolve_local` -/
  namedVariable := fun name canAssign p =>
    let res := p.compiler.resolve_local name
    let p := match res.2 with
      | some msg => errorP p msg
      | none => p
    match res.1 with
    | some i =>
      if 256 ≤ i then none
      else prev.finishNamed canAssign p i .GetLocal .SetLocal
    | none => do
      let pg ← identifierConstant p name
      prev.finishNamed canAssign pg.1 pg.2 .GetGlobal .SetGlobal
  /- the tail of `named_variable`: an `=` under `can_assign` compiles an
  assignment, anything else a read -/
  finishNamed := fun canAssign p arg getOp setOp =>
    if canAssign then do
      let pm ← matchToken p .Equal
      if pm.2 then do
        let p ← prev.expression pm.1
        some (emitOpcodeByte p setOp arg)
      else some (emitOpcodeByte pm.1 getOp arg)
    else some (emitOpcodeByte p getOp arg)
  /- `Parser::and` -/
  andOp := fun _ p => do
    let pe := emitJump p .JumpIfFalse
    let p := emitOpcode pe.1 .Pop
    let p ← prev.parsePrecedence .And p
    some (patchJump p pe.2)
  /- `Parser::or` -/
  orOp := fun _ p => do
    let pe := emitJump p .JumpIfFalse
    let pj := emitJump pe.1 .Jump
    let p := patchJump pj.1 pe.2
    let p := emitOpcode p .Pop
    let p ← prev.parsePrecedence .Or p
    some (patchJump p pj.2)
  /- `Parser::call` -/
  callOp := fun _ p => do
    let pa ← prev.argumentList p
    some (emitOpcodeByte pa.1 .Call pa.2)
  /- `Parser::argument_list` -/
  argumentList := fun p =>
    if check p .RightParen then do
      let p ← consume p .RightParen "Expect ')' after arguments".toList
      some (p, 0)
    else do
      let pa ← prev.argLoop p 0
      let p ← consume pa.1 .RightParen "Expect ')' after arguments".toList
      some (p, pa.2)
  /- the argument loop: at 255 the source reports the too-many-arguments
  error and then increments its `u8` counter anyway — a debug-build
  overflow panic, modelled as `none` -/
  argLoop := fun p count => do
    let p ← prev.expression p
    if count = 255 then none
    else
      let count := count + 1
      let pm ← matchToken p .Comma
      if pm.2 then prev.argLoop pm.1 count else some (pm.1, count)
  /- `Parser::expression` -/
  expression := fun p => prev.parsePrecedence .Assignment p
  /- `Parser::block` -/
  blockFn := fun p =>
    if !(check p .RightBrace) && !(check p .EOF) then do
      let p ← prev.declaration p
      prev.blockFn p
    else
      consume p .RightBrace "Expect '\x7b' after block".toList
  /- `Parser::declaration` -/
  declaration := fun p => do
    let pm ← matchToken p .Fun
    let p ← (if pm.2 then prev.funDeclaration pm.1
      else do
        let pv ← matchToken pm.1 .Var
        if pv.2 then prev.varDeclaration pv.1
        else prev.statement pv.1)
    if p.panic_mode then synchronize p else some p
  /- `Parser::statement` -/
  statement := fun p => do
    let pm ← matchToken p .Print
    if pm.2 then prev.printStatement pm.1
    else do
      let pf ← matchToken pm.1 .For
      if pf.2 then prev.forStatement pf.1
      else do
        let pi ← matchToken pf.1 .If
        if pi.2 then prev.ifStatement pi.1
        else do
          let pw ← matchToken pi.1 .While
          if pw.2 then prev.whileStatement pw.1
          else do
            let pb ← matchToken pw.1 .LeftBrace
            if pb.2 then do
              let p := beginScope pb.1
              let p ← prev.blockFn p
              some (endScope p)
            else prev.expressionStatement pb.1
  /- `Parser::fun_declaration` -/
  funDeclaration := fun p => do
    let pg ← parseVariable p "Expect function name".toList
    let p := markInitialized pg.1
    let p ← prev.functionCompile .Function p
    some (defineVariable p pg.2)
  /- `Parser::function`: swap in a fresh compiler context, compile the
  parameter list and body, swap back, then emit the finished function as
  a constant of the enclosing chunk (the stray debug `println!` of the
  current token is stdout noise, not modelled) -/
  functionCompile := fun ftype p => do
    let saved := p.compiler
    let p := { p with compiler := Compiler.new ftype (some p.previous.str) }
    let p := beginScope p
    let p ← consume p .LeftParen "Expect '(' after function name".toList
    let p ← (if !(check p .RightParen) then prev.paramLoop p else some p)
    let p ← consume p .RightParen "Expect ')' after parameters".toList
    let p ← consume p .LeftBrace "Expect '\x7b' before function body".toList
    let p ← prev.blockFn p
    let pf := endCompiler p
    let p := { pf.1 with compiler := saved }
    let hp := p.heap.allocate_obj ⟨.Function pf.2⟩
    let p := { p with heap := hp.1 }
    let pc ← makeConstant p (.Obj hp.2)
    some (emitOpcodeByte pc.1 .Constant pc.2)
  /- the parameter loop inside `Parser::function` -/
  paramLoop := fun p => do
    let p := { p with compiler := { p.compiler with function :=
        { p.compiler.function with
          arity := p.compiler.function.arity + 1 } } }
    let p := if p.compiler.function.arity > 255 then
        errorAtCurrent p "Cannot have more than 255 parameters".toList
      else p
    let pc ← parseVariable p "Expect parameter name".toList
    let p := defineVariable pc.1 pc.2
    let pm ← matchToken p .Comma
    if pm.2 then prev.paramLoop pm.1 else some pm.1
  /- `Parser::var_declaration` -/
  varDeclaration := fun p => do
    let pg ← parseVariable p "Expect variable name".toList
    let pm ← matchToken pg.1 .Equal
    let p ← (if pm.2 then prev.expression pm.1
      else some (emitOpcode pm.1 .Nil))
    let p ← consume p .Semicolon "Expect ';' after variable declaration".toList
    some (defineVariable p pg.2)
  /- `Parser::expression_statement` -/
  expressionStatement := fun p => do
    let p ← prev.expression p
    let p ← consume p .Semicolon "Expect ';' after expression".toList
    some (emitOpcode p .Pop)
  /- `Parser::print_statement` -/
  printStatement := fun p => do
    let p ← prev.expression p
    let p ← consume p .Semicolon "Expect ';' after value".toList
    some (emitOpcode p .Print)
  /- `Parser::if_statement` -/
  ifStatement := fun p => do
    let p ← consume p .LeftParen "Expect '(' after 'if'".toList
    let p ← prev.expression p
    let p ← consume p .RightParen "Expect ')' after condition".toList
    let pt := emitJump p .JumpIfFalse
    let p := emitOpcode pt.1 .Pop
    let p ← prev.statement p
    let pe := emitJump p .Jump
    let p := patchJump pe.1 pt.2
    let p := emitOpcode p .Pop
    let pm ← matchToken p .Else
    let p ← (if pm.2 then prev.statement pm.1 else some pm.1)
    some (patchJump p pe.2)
  /- `Parser::while_statement` -/
  whileStatement := fun p => do
    let loopStart := (currentChunk p).code.length
    let p ← consume p .LeftParen "Expect '(' after while".toList
    let p ← prev.expression p
    let p ← consume p .RightParen "Expect ')' after condition".toList
    let pe := emitJump p .JumpIfFalse
    let p := emitOpcode pe.1 .Pop
    let p ← prev.statement p
    let p := emitLoop p loopStart
    let p := patchJump p pe.2
    some (emitOpcode p .Pop)
  /- `Parser::for_statement` (initializer, optional condition with exit
  jump, optional increment with the jump-over-increment dance, body,
  loop-back, scope pop) -/
  forStatement := fun p => do
    let p := beginScope p
    let p ← consume p .LeftParen "Expect '(' after 'for'".toList
    let pm ← matchToken p .Semicolon
    let p ← (if pm.2 then some pm.1
      else do
        let pv ← matchToken pm.1 .Var
        if pv.2 then prev.varDeclaration pv.1
        else prev.expressionStatement pv.1)
    let loopStart := (currentChunk p).code.length
    let pm ← matchToken p .Semicolon
    let cond ← (if !pm.2 then do
        let p ← prev.expression pm.1
        let p ← consume p .Semicolon "Expect ';' after loop condition".toList
        let pe := emitJump p .JumpIfFalse
        some (pe.1, some pe.2)
      else some (pm.1, (none : Option Nat)))
    let p := cond.1
    let pm ← matchToken p .RightParen
    let inc ← (if !pm.2 then do
        let pb := emitJump pm.1 .Jump
        let incStart := (currentChunk pb.1).code.length
        let p ← prev.expression pb.1
        let p := emitOpcode p .Pop
        let p ← consume p .RightParen "Expect ')' after for clauses".toList
        let p := emitLoop p loopStart
        let p := patchJump p pb.2
        some (p, incStart)
      else some (pm.1, loopStart))
    let p ← prev.statement inc.1
    let p := emitLoop p inc.2
    let p := (match cond.2 with
      | some ej => emitOpcode (patchJump p ej) .Pop
      | none => p)
    some (endScope p)

/-- The grammar functions at a given fuel. -/
def parserFns : Nat → ParserFns
  | 0 => parserFns0
  | n + 1 => parserFnsStep (parserFns n)

/-- `Parser::parse_precedence` at a given fuel. -/
def parsePrecedence (fuel : Nat) (prec : Precedence) (p : PState) :
    Option PState :=
  (parserFns fuel).parsePrecedence prec p

/-- `Parser::unary` at a given fuel. -/
def unary (fuel : Nat) (canAssign : Bool) (p : PState) : Option PState :=
  (parserFns fuel).unary canAssign p

/-- `Parser::expression` at a given fuel. -/
def expression (fuel : Nat) (p : PState) : Option PState :=
  (parserFns fuel).expression p

/-- `Parser::declaration` at a given fuel. -/
def declaration (fuel : Nat) (p : PState) : Option PState :=
  (parserFns fuel).declaration p


/-- The top-level declaration loop of `Parser::compile`. -/
def compileLoop : Nat → PState → Option PState
  | 0, _ => none
  | n + 1, p => do
    let pm ← matchToken p .EOF
    if pm.2 then some pm.1
    else do
      let p ← declaration n pm.1
      compileLoop n p

/-- `compile(source, heap)`: build the parser over a fresh script
compiler context, pull the first token, run declarations to EOF, emit the
implicit Return; report `Err` when any error was recorded.  The outer
`none` is a panic (or fuel exhaustion). -/
def compileSrc (fuel : Nat) (source : List Char) (heap : ObjHeap) :
    Option (Except Unit (ObjFunction × ObjHeap)) := do
  let noop : Token := ⟨.NOOP, [], 1⟩
  let p : PState := ⟨⟨source, 0, 1⟩, noop, noop, false, false, heap,
    Compiler.new .Script none⟩
  let p ← advanceP p
  let p ← compileLoop fuel p
  let pf := endCompiler p
  if pf.1.had_error then some (.error ()) else some (.ok (pf.2, pf.1.heap))

/-- Overall result of `VM::interpret`, with the Print output collected. -/
inductive InterpretOut
  | ok (output : List (List Char))
  | runtimeError (msg : List Char) (output : List (List Char))
  | compileError
  | crashed
  | fuelOut
  deriving DecidableEq, Repr

/-- `VM::interpret`: compile, allocate the script function, push it, call
it with zero arguments, run the dispatch loop. -/
def interpret (fuel : Nat) (source : List Char) : InterpretOut :=
  match compileSrc fuel source ObjHeap.new with
  | none => .crashed
  | some (.error _) => .compileError
  | some (.ok (fn, heap)) =>
    let hp := heap.allocate_obj ⟨.Function fn⟩
    let s : VMState := ⟨[], [], hp.1, fun _ => none, []⟩
    let s := s.push (.Obj hp.2)
    match callValue s (.Obj hp.2) 0 with
    | .ok s =>
      match vmRun fuel s with
      | .halted s => .ok s.output
      | .errored m s => .runtimeError m s.output
      | .crashed => .crashed
      | .fuelOut => .fuelOut
    | .err m s => .runtimeError m s.output
    | .halt _ => .crashed
    | .crash => .crashed


/-! ## Claim C1: function-call return -/

/-- The function-call example source from the spec:
`fun add(a,b) { return a+b; } print add(2,3);`. -/
def c1Source : List Char :=
  "fun add(a,b) \x7b return a+b; \x7d print add(2,3);".toList

/-- A two-frame VM state whose active instruction is `Return`: the inner
frame runs a chunk holding only the Return opcode while a caller frame
waits below. -/
def c1Chunk : Chunk := ⟨[OpCode.Return.toNat], [1], []⟩

def c1Heap : ObjHeap := ⟨[⟨.Function ⟨0, c1Chunk, none⟩⟩], []⟩

def c1State : VMState :=
  ⟨[⟨0, 0, 1⟩, ⟨0, 0, 0⟩], [Value.Obj 0, Value.Obj 0], c1Heap,
    fun _ => none, []⟩

def StepRes.isHalt : StepRes → Bool
  | .halt _ => true
  | _ => false

/-- C1 fails on the code, in both halves (the claim describes the
intended Crafting Interpreters semantics, which this snapshot has not
implemented): (i) the example source does not even compile — `return`
statements have no handler (`statement` never matches `Return`, and
`get_rule(Return)` has no prefix rule, so compiling `return a+b;` reports
"Expect expression") — so nothing is printed; (ii) the VM's `Return` arm
is `return Ok(())`: executing Return ends interpretation even when an
enclosing caller frame exists, instead of resuming the caller. -/
theorem C1_return_behavior :
    interpret 80 c1Source = .compileError
    ∧ (vmStep c1State).isHalt = true := by
  constructor
  · decide
  · decide

/-! ## Claim C2: the 256-constant cap -/

/-- A source with 257 distinct constant-pool entries: each statement
`a;` appends a fresh constant (the interned name handle is reused, but
`add_constant` never deduplicates pool entries). -/
def c2Source : List Char := List.join (List.replicate 257 ['a', ';'])

set_option maxRecDepth 100000

/-- C2 fails on the code: adding the constant that would need index 256
makes `Chunk::add_constant` panic (`.expect("No more space for constant
id in u8")`), aborting the process, instead of reporting a compile
error; accordingly, compiling a source with 257 constants ends in the
panic outcome (`none`), not in the compile-failure sentinel
(`some (.error ())`). -/
theorem C2_add_constant_panics :
    (∀ (c : Chunk) (v : Value), 256 ≤ c.constants.length →
      c.add_constant v = none)
    ∧ (compileSrc 400 c2Source ObjHeap.new).isNone = true := by
  constructor
  · intro c v h
    simp only [Chunk.add_constant]
    have hlen : (c.constants ++ [v]).length - 1 = c.constants.length := by
      simp
    rw [hlen]
    have : ¬ (c.constants.length ≤ 255) := by omega
    simp [this]
  · decide

theorem C2_witness :
    (Chunk.mk [] [] (List.replicate 256 Value.Nil)).add_constant
      Value.Nil = none :=
  C2_add_constant_panics.1 (Chunk.mk [] [] (List.replicate 256 Value.Nil))
    Value.Nil (by decide)

/-! ## Claim C8: scope shadowing -/

/-- The scope-shadowing example source:
`var x = 1; { var x = 2; print x; } print x;`. -/
def c8Source : List Char :=
  "var x = 1; \x7b var x = 2; print x; \x7d print x;".toList

theorem enum_reverse_concat {α : Type} (l : List α) (a : α) :
    (l ++ [a]).enum.reverse = (l.length, a) :: l.enum.reverse := by
  rw [List.enum_append]
  simp [List.enumFrom]

/-- C8: interpreting the shadowing example prints `2` then `1`; and the
resolver behind it: `resolve_local` scans the locals in reverse, so a
variable reference resolves to the most recently declared matching
local (the last entry wins no matter what sits before it). -/
theorem C8_scope_shadowing :
    interpret 80 c8Source = .ok [['2'], ['1']]
    ∧ (∀ (c : Compiler) (t : Token) (ls : List Local) (lv : Local),
      c.locals = ls ++ [lv] → lv.name.str = t.str → lv.depth ≠ -1 →
      c.resolve_local t = (some ls.length, none)) := by
  constructor
  · decide
  · intro c t ls lv hl hn hd
    unfold Compiler.resolve_local
    rw [hl, enum_reverse_concat]
    unfold resolveLocalAux
    simp [hn, hd]

theorem C8_witness :
    (Compiler.mk ObjFunction.new .Script
        [⟨⟨.Identifier, ['x'], 1⟩, 1⟩, ⟨⟨.Identifier, ['x'], 2⟩, 1⟩] 1
      ).resolve_local ⟨.Identifier, ['x'], 3⟩ =
      (some 1, none) :=
  C8_scope_shadowing.2 _ ⟨.Identifier, ['x'], 3⟩
    [⟨⟨.Identifier, ['x'], 1⟩, 1⟩] ⟨⟨.Identifier, ['x'], 2⟩, 1⟩
    rfl rfl (by decide)

/-! ## Claim C10: unary plus -/

/-- C10: the `Plus` token has a prefix handler (so `+e` is accepted),
namely `unary`; and `unary` invoked with a `Plus` operator is exactly
`parse_precedence(Unary)` — no opcode is emitted for the `+` itself, so
`+e` compiles to the same bytecode as `e` parsed at Unary precedence.
Concretely, `print +5;` prints `5`. -/
theorem C10_unary_plus :
    getRule .Plus = ⟨some .unary, some .binary, .Term⟩
    ∧ (∀ (n : Nat) (canAssign : Bool) (p : PState),
      p.previous.typ = .Plus →
      unary (n + 1) canAssign p = parsePrecedence n .Unary p)
    ∧ interpret 100 "print +5;".toList = .ok [['5']] := by
  refine ⟨rfl, ?_, by decide⟩
  intro n canAssign p h
  show (parserFnsStep (parserFns n)).unary canAssign p = _
  simp only [parserFnsStep, h, parsePrecedence]
  cases (parserFns n).parsePrecedence .Unary p <;> rfl

def c10State : PState :=
  ⟨⟨[], 0, 1⟩, ⟨.EOF, [], 1⟩, ⟨.Plus, ['+'], 1⟩, false, false,
    ObjHeap.new, Compiler.new .Script none⟩

theorem C10_witness :
    unary 1 false c10State = parsePrecedence 0 .Unary c10State :=
  C10_unary_plus.2.1 0 false c10State rfl

end RLox
